import Mathlib

/-!
# Verification of the checkpointed batch ingestion engine (senso)

Shallow embedding of the batch ingestion engine of the repository:
`processPdfBatch`, `startFullIngestion`, `deleteContinuationTriggers`
(`src/Code.js`) and `BigQueryLoader.loadData` / `BigQueryLoader.insertWithRetry`
(`src/GeminiService.js`), together with the per-item processing pipeline
`PmixParser.parse` + `BigQueryLoader` as it is driven by the engine.

Modelling conventions:
* The Apps Script user-property store (`PropertiesService.getUserProperties()`)
  is an association list `List (String × String)`; `getProperty` returns
  `Option String` and JavaScript truthiness of a retrieved string is
  "present and not the empty string".
* Wall-clock time is measured in integer milliseconds (JS `Date.getTime()`
  returns integer milliseconds).  The source compares
  `(now - start)/1000/60 > EXECUTION_TIME_LIMIT_MINUTES - TIME_BUFFER_MINUTES`;
  over the integers this is exactly `elapsedMs > 240000`.
* The Drive file iterator and its opaque continuation token are modelled by
  the list of files of the logical enumeration pass plus a token encoding the
  number of files already consumed.  The encoding (`encodeTok`/`decodeTok`)
  only has to round-trip and to be a non-empty (JS-truthy) string, since the
  token is opaque to the engine.
* External effects that can fail (Drive/BigQuery/Gemini) are oracles carried
  by the invocation environment: each file carries the outcome of
  `PmixParser.parse` and the per-attempt outcomes of the two
  `BigQuery.Tabledata.insertAll` calls; each invocation carries an optional
  setup-phase error and the elapsed-time observations of the budget checks.
* Ghost logs (`extractions`, `sinkSubs`, `swallowed`, sleep lists) record
  which items were handed to the extractor / the retrying sink, and which
  sink errors were caught-and-logged inside `loadData`; they change no
  control flow.
-/

namespace Senso

/-- `leadsWith needle hay` : `needle` is a prefix of `hay` (decidable Bool). -/
def leadsWith : List Char → List Char → Bool
  | [], _ => true
  | _ :: _, [] => false
  | a :: as, b :: bs => a == b && leadsWith as bs

/-- Substring test on char lists, semantics of JS `String.prototype.includes`. -/
def hasSub (needle : List Char) : List Char → Bool
  | [] => needle.isEmpty
  | c :: rest => leadsWith needle (c :: rest) || hasSub needle rest

/-- JS `hay.includes(needle)`. -/
def strIncludes (hay needle : String) : Bool :=
  hasSub needle.toList hay.toList

/-- JS `s.startsWith(p)`. -/
def strStarts (s p : String) : Bool :=
  leadsWith p.toList s.toList

/-- `userProperties.getProperty k` over the association-list store. -/
def getProp : List (String × String) → String → Option String
  | [], _ => none
  | p :: ps, k => if p.1 = k then some p.2 else getProp ps k

/-- Remove every binding of key `k` from the store. -/
def removeKey : List (String × String) → String → List (String × String)
  | [], _ => []
  | p :: ps, k => if p.1 = k then removeKey ps k else p :: removeKey ps k

/-- `userProperties.setProperty k v` (observable behaviour of the KV store). -/
def setProp (ps : List (String × String)) (k v : String) : List (String × String) :=
  (k, v) :: removeKey ps k

/-- `userProperties.deleteProperty k`. -/
def delProp (ps : List (String × String)) (k : String) : List (String × String) :=
  removeKey ps k

/-- Digit value of a character, `none` for non-digits. -/
def digitVal (c : Char) : Option Nat :=
  if 48 ≤ c.toNat ∧ c.toNat ≤ 57 then some (c.toNat - 48) else none

/-- Leading-digits accumulator of `parseInt`. -/
def parseDigits : List Char → Nat → Nat
  | [], acc => acc
  | c :: cs, acc =>
    match digitVal c with
    | some d => parseDigits cs (acc * 10 + d)
    | none => acc

/-- JS `parseInt` on the non-negative decimal strings the engine writes
(leading digits; 0 when there are none). -/
def jsParseInt (s : String) : Nat := parseDigits s.toList 0

/-- JS truthiness of a string retrieved from the store: non-null and non-empty. -/
def truthy : Option String → Bool
  | none => false
  | some s => s ≠ ""

-- Constants of `src/Code.js`.

/-- `EXECUTION_TIME_LIMIT_MINUTES = 6`. -/
def EXECUTION_TIME_LIMIT_MINUTES : Nat := 6

/-- `TIME_BUFFER_MINUTES = 2`. -/
def TIME_BUFFER_MINUTES : Nat := 2

/-- The safety-stop threshold in milliseconds:
`(EXECUTION_TIME_LIMIT_MINUTES - TIME_BUFFER_MINUTES)` minutes. -/
def SAFE_MS : Nat := (EXECUTION_TIME_LIMIT_MINUTES - TIME_BUFFER_MINUTES) * 60000

/-- `RETRY_INTERVAL_MINUTES * 60 * 1000 = 30000` ms (0.5 minutes). -/
def RETRY_MS : Nat := 30000

/-- The transient-error signature tested by `e.message.includes(...)` both in
`BigQueryLoader.insertWithRetry` and in the setup-phase catch of
`processPdfBatch`. -/
def TRANSIENT_SNIPPET : String := "We\x27re sorry, a server error occurred"

/-- The transient-error predicate: `e.message.includes(TRANSIENT_SNIPPET)`. -/
def transientErr (msg : String) : Bool :=
  strIncludes msg TRANSIENT_SNIPPET

/-- The per-item timeout signature tested by `e.message.includes("timed out")`. -/
def timedOutErr (msg : String) : Bool :=
  strIncludes msg "timed out"

/-- Status string written on the safety stop:
`Waiting... (Safety stop, will continue in 0.5 mins)`. -/
def waitingMsg : String := "Waiting... (Safety stop, will continue in 0.5 mins)"

/-- The opaque Drive continuation token for "`n` files already consumed".
Chosen encoding: `n+1` copies of `x`, so the token is never the empty
(JS-falsy) string and round-trips through the store. -/
def encodeTok (n : Nat) : String := String.mk (List.replicate (n + 1) 'x')

/-- Decode the opaque continuation token back to a consumed-count. -/
def decodeTok (s : String) : Nat := s.toList.length - 1

/-! ## RetryingSink: `BigQueryLoader.insertWithRetry` / `loadData` -/

/-- Outcome of one `BigQuery.Tabledata.insertAll` attempt: it either returns,
or throws an error with the given message. -/
inductive AttemptResult where
  | success
  | failure (msg : String)

/-- Result of `insertWithRetry`: the exception-or-return outcome, the number
of `insertAll` attempts actually made, and the `Utilities.sleep` delays (ms)
in the order they were performed (ghost observation). -/
instance : DecidableEq (Except String Unit) := fun a b =>
  match a, b with
  | .ok (), .ok () => isTrue rfl
  | .error x, .error y =>
    if h : x = y then isTrue (by rw [h]) else isFalse (by intro hc; cases hc; exact h rfl)
  | .ok _, .error _ => isFalse (by intro hc; cases hc)
  | .error _, .ok _ => isFalse (by intro hc; cases hc)

structure RetryResult where
  outcome : Except String Unit
  attemptsMade : Nat
  sleeps : List Nat
  deriving DecidableEq

/-- The message of the error thrown when all retries are exhausted:
`Failed to insert data into ${tableId} after ${maxRetries} attempts.` -/
def exhaustMsg (tableId : String) : String :=
  "Failed to insert data into " ++ tableId ++ " after 4 attempts."

/-- The retry loop of `BigQueryLoader.insertWithRetry`: `remaining` tries left,
`i` attempts already made, current backoff `delay`, accumulated sleeps
(reversed).  On a transient error it sleeps `delay` and doubles it; on any
other error it rethrows immediately; after the loop it throws the
exhaustion error. -/
def insertLoop (att : Nat → AttemptResult) (tableId : String) :
    Nat → Nat → Nat → List Nat → RetryResult
  | 0, i, _, slept =>
    { outcome := .error (exhaustMsg tableId), attemptsMade := i, sleeps := slept.reverse }
  | r + 1, i, delay, slept =>
    match att i with
    | .success => { outcome := .ok (), attemptsMade := i + 1, sleeps := slept.reverse }
    | .failure m =>
      if transientErr m then
        insertLoop att tableId r (i + 1) (delay * 2) (delay :: slept)
      else
        { outcome := .error m, attemptsMade := i + 1, sleeps := slept.reverse }

/-- `BigQueryLoader.insertWithRetry` with `maxRetries = 4` and initial delay
`1000` ms, driven by the oracle `att` giving the outcome of each attempt. -/
def insertWithRetry (att : Nat → AttemptResult) (tableId : String) : RetryResult :=
  insertLoop att tableId 4 0 1000 []

/-- Ghost result of `BigQueryLoader.loadData`: whether any `insertAll` was
attempted, the error messages caught (and only logged) by its two internal
`try/catch` blocks, and the raw retry results.  `loadData` itself never
throws: both `insertWithRetry` calls are wrapped in `try/catch`. -/
structure LoadResult where
  submitted : Bool
  swallowed : List String
  reportsRun : Option RetryResult
  metricsRun : Option RetryResult

/-- `BigQueryLoader.loadData`.  `valid` is the validity test
`data && data.reportData && data.metricsData && data.metricsData.length > 0`;
when it fails the loader returns without any insert.  A failure of the
`reports` insert is caught, logged, and skips the `metrics` insert; a failure
of the `metrics` insert is caught and logged.  No error propagates. -/
def loadData (valid : Bool) (repAtt metAtt : Nat → AttemptResult) : LoadResult :=
  if valid then
    let r := insertWithRetry repAtt "reports"
    match r.outcome with
    | .error e => { submitted := true, swallowed := [e], reportsRun := some r, metricsRun := none }
    | .ok _ =>
      let m := insertWithRetry metAtt "metrics"
      match m.outcome with
      | .error e =>
        { submitted := true, swallowed := [e], reportsRun := some r, metricsRun := some m }
      | .ok _ =>
        { submitted := true, swallowed := [], reportsRun := some r, metricsRun := some m }
  else
    { submitted := false, swallowed := [], reportsRun := none, metricsRun := none }

/-! ## The batch engine: `processPdfBatch` and friends (`src/Code.js`) -/

/-- Behaviour of `PmixParser.parse(file)` on a given file: it returns a
truthy object (with `valid` recording whether `loadData`'s validity test
passes on it), returns `null`, or throws an error with the given message
(e.g. a fetch timeout or the rate-limit error). -/
inductive ParseOutcome where
  | parsed (valid : Bool)
  | nullResult
  | raised (msg : String)

/-- One Drive file of the enumeration pass, together with the oracle
outcomes of the external operations the engine performs on it. -/
structure FileEnt where
  id : String
  name : String
  parse : ParseOutcome
  repAtt : Nat → AttemptResult
  metAtt : Nat → AttemptResult

/-- Result of processing one not-yet-ledgered file (the body of the inner
`try/catch` of `processPdfBatch`): updated property store, updated
`processedCount` local, and ghost logs. -/
structure ItemOut where
  props : List (String × String)
  count : Nat
  extractions : List String
  sinkSubs : List String
  swallowed : List String

/-- The per-item body of `processPdfBatch` for a file whose ledger lookup was
falsy.  Mirrors `src/Code.js` lines 201–223: only `pmix-` names are parsed;
a truthy parse result is loaded (whose sink errors `loadData` swallows) and
then the ledger is set to `'true'` and `processedCount` incremented; a null
parse sets `'failed_to_parse'`; a thrown error sets `'timed_out'` when its
message includes `timed out`, otherwise only `ingestionStatus` is set to
`Error on file: <name>`. -/
def handleFile (f : FileEnt) (props : List (String × String)) (count : Nat) : ItemOut :=
  if strStarts f.name "pmix-" then
    match f.parse with
    | .parsed valid =>
      let L := loadData valid f.repAtt f.metAtt
      let props := setProp props f.id "true"
      let count := count + 1
      let props := setProp props "processedCount" (toString count)
      { props := props
        count := count
        extractions := [f.id]
        sinkSubs := if L.submitted then [f.id] else []
        swallowed := L.swallowed }
    | .nullResult =>
      { props := setProp props f.id "failed_to_parse"
        count := count
        extractions := [f.id]
        sinkSubs := []
        swallowed := [] }
    | .raised m =>
      if timedOutErr m then
        { props := setProp props f.id "timed_out"
          count := count
          extractions := [f.id]
          sinkSubs := []
          swallowed := [] }
      else
        { props := setProp props "ingestionStatus" ("Error on file: " ++ f.name)
          count := count
          extractions := [f.id]
          sinkSubs := []
          swallowed := [] }
  else
    { props := props, count := count, extractions := [], sinkSubs := [], swallowed := [] }

/-- Engine state crossing invocation boundaries: the user-property store
(ledger + JobState fields) and the project trigger list (handler name and
delay in ms), plus ghost logs of extractor calls, sink submissions and
swallowed sink errors. -/
structure EngineSt where
  props : List (String × String)
  triggers : List (String × Nat)
  extractions : List String
  sinkSubs : List String
  swallowed : List String

/-- `deleteContinuationTriggers`: delete every trigger whose handler is
`processPdfBatch`. -/
def cancelContinuations (trs : List (String × Nat)) : List (String × Nat) :=
  trs.filter (fun tr => tr.1 ≠ "processPdfBatch")

/-- Number of pending continuations of the batch job
(`Scheduler.listPending(jobId).length`). -/
def pendingCount (st : EngineSt) : Nat :=
  (st.triggers.filter (fun tr => tr.1 = "processPdfBatch")).length

/-- The `while (files.hasNext())` loop of `processPdfBatch`.
`remaining` is the unconsumed tail of the enumeration, `consumed` the number
of files already consumed in this logical pass (the value an interruption
persists), `iter` counts budget checks, `count` is the `processedCount`
local, `elapsedMs iter` the elapsed wall clock at the `iter`-th check. -/
def runLoop (elapsedMs : Nat → Nat) :
    List FileEnt → Nat → Nat → Nat → EngineSt → EngineSt
  | [], _, _, _, st =>
    -- All files processed: status `Completed`, token deleted, continuations cancelled.
    { st with
      props := delProp (setProp st.props "ingestionStatus" "Completed") "continuationToken"
      triggers := cancelContinuations st.triggers }
  | f :: rest, consumed, iter, count, st =>
    if elapsedMs iter > SAFE_MS then
      -- Safety stop: persist cursor, cancel + register continuation, set status, return.
      let props := setProp st.props "continuationToken" (encodeTok consumed)
      let trs := ("processPdfBatch", RETRY_MS) :: cancelContinuations st.triggers
      let props := setProp props "ingestionStatus" waitingMsg
      { st with props := props, triggers := trs }
    else
      if truthy (getProp st.props f.id) then
        -- `if (isProcessed) continue;`
        runLoop elapsedMs rest (consumed + 1) (iter + 1) count st
      else
        let o := handleFile f st.props count
        runLoop elapsedMs rest (consumed + 1) (iter + 1) o.count
          { st with
            props := o.props
            extractions := st.extractions ++ o.extractions
            sinkSubs := st.sinkSubs ++ o.sinkSubs
            swallowed := st.swallowed ++ o.swallowed }

/-- Environment of a single engine invocation: an optional setup-phase error
(thrown while acquiring the folder / the file iterator), the elapsed-time
oracle of the budget checks, and the `new Date().toUTCString()` value. -/
structure InvEnv where
  setupErr : Option String
  elapsedMs : Nat → Nat
  nowStr : String

/-- The continuation token currently stored, with JS truthiness: an empty
string is falsy and treated like an absent token. -/
def tokOf (props : List (String × String)) : Option String :=
  match getProp props "continuationToken" with
  | some s => if s = "" then none else some s
  | none => none

/-- The files the current invocation will enumerate: all of them for a fresh
pass, the suffix after the persisted cursor otherwise. -/
def remainingOf (files : List FileEnt) (props : List (String × String)) : List FileEnt :=
  match tokOf props with
  | some t => files.drop (decodeTok t)
  | none => files

/-- The consumed-count encoded by the stored cursor (0 for a fresh pass). -/
def consumedOf (props : List (String × String)) : Nat :=
  match tokOf props with
  | some t => decodeTok t
  | none => 0

/-- The enumeration part of a `processPdfBatch` invocation: the early
`Completed (No files found)` return for a fresh pass over an empty folder,
or the processing loop resumed at the stored cursor. -/
def batchBody (files : List FileEnt) (e : Nat → Nat) (count : Nat) (st : EngineSt) : EngineSt :=
  let rem := remainingOf files st.props
  if rem.isEmpty ∧ tokOf st.props = none then
    { st with props := setProp st.props "ingestionStatus" "Completed (No files found)" }
  else
    runLoop e rem (consumedOf st.props) 0 count st

/-- One invocation of `processPdfBatch` (`src/Code.js` lines 159–242) over
the enumeration pass `files`. -/
def processPdfBatch (files : List FileEnt) (env : InvEnv) (st : EngineSt) : EngineSt :=
  let props := setProp st.props "ingestionStatus" "Running..."
  let props := setProp props "lastRunTimestamp" env.nowStr
  let count := jsParseInt ((getProp props "processedCount").getD "0")
  match env.setupErr with
  | some m =>
    -- The outer catch: status `Failed: <msg>`, then reschedule iff transient.
    let props := setProp props "ingestionStatus" ("Failed: " ++ m)
    if transientErr m then
      { st with
        props := props
        triggers := ("processPdfBatch", RETRY_MS) :: cancelContinuations st.triggers }
    else
      { st with props := props, triggers := cancelContinuations st.triggers }
  | none =>
    batchBody files env.elapsedMs count { st with props := props }

/-- The state-resetting prefix of `startFullIngestion` (`src/Code.js` lines
137–152): cancel continuation triggers, delete all user properties, then
seed `ingestionStatus`, `processedCount` and `lastRunTimestamp`. -/
def startPrep (nowStr : String) (st : EngineSt) : EngineSt :=
  let props : List (String × String) := []
  let props := setProp props "ingestionStatus" "Starting..."
  let props := setProp props "processedCount" "0"
  let props := setProp props "lastRunTimestamp" nowStr
  { st with props := props, triggers := cancelContinuations st.triggers }

/-- `startFullIngestion`: reset state, then run the first batch directly. -/
def startFullIngestion (files : List FileEnt) (env : InvEnv) (st : EngineSt) : EngineSt :=
  processPdfBatch files env (startPrep env.nowStr st)

/-- A sequence of engine invocations over the same logical enumeration pass
(scheduled continuations and/or repeated manual calls of `processPdfBatch`). -/
def runBatches (files : List FileEnt) (envs : List InvEnv) (st : EngineSt) : EngineSt :=
  envs.foldl (fun s e => processPdfBatch files e s) st

/-- The property keys owned by JobState bookkeeping; every other key of the
user-property store is a ledger entry keyed by a Drive file id. -/
def RESERVED : List String :=
  ["ingestionStatus", "processedCount", "lastRunTimestamp", "continuationToken"]

/-- The three terminal ledger outcome values the engine writes
(Success / FailedParse / TimedOut). -/
def terminalVal (v : String) : Bool :=
  v = "true" ∨ v = "failed_to_parse" ∨ v = "timed_out"

/-- A work item that the engine is able to classify terminally: a `pmix-`
file whose processing either succeeds, returns null, or throws a
`timed out` error.  (Files with other names are silently ignored, and
unexpected errors only touch `ingestionStatus`.) -/
def goodFile (f : FileEnt) : Bool :=
  strStarts f.name "pmix-" &&
    (match f.parse with
     | .raised m => timedOutErr m
     | _ => true)

/-- `f` has a terminal ledger entry in `props` whenever it is classifiable. -/
def handledE (props : List (String × String)) (f : FileEnt) : Prop :=
  goodFile f = true → ∃ v, getProp props f.id = some v ∧ terminalVal v = true

/-- Ledger well-formedness: every non-reserved key of the store (i.e. every
ledger entry) holds one of the three terminal outcome values. -/
def Wprop (props : List (String × String)) : Prop :=
  ∀ k v, k ∉ RESERVED → getProp props k = some v → terminalVal v = true

/-- Cross-invocation cursor invariant for an enumeration pass `files`:
either no cursor is stored, or the cursor encodes a consumed-count `t ≤ N`
and every classifiable file of the consumed prefix already has a terminal
ledger entry. -/
def invC3 (files : List FileEnt) (props : List (String × String)) : Prop :=
  Wprop props ∧
  (tokOf props = none ∨
   ∃ t, t ≤ files.length ∧ tokOf props = some (encodeTok t) ∧
     ∀ f ∈ files.take t, handledE props f)

/-! ## Concrete scenario inputs used by counterexamples and witnesses -/

/-- A `pmix-` file whose extraction succeeds and whose sink writes succeed. -/
def fileOk : FileEnt :=
  ⟨"idOk", "pmix-aug.pdf", .parsed true, fun _ => .success, fun _ => .success⟩

/-- A `pmix-` file whose extraction succeeds but whose `reports` insert
fails with the transient server error on every attempt (retry exhaustion). -/
def fileSinkDead : FileEnt :=
  ⟨"idSink", "pmix-sep.pdf", .parsed true,
   fun _ => .failure TRANSIENT_SNIPPET, fun _ => .success⟩

/-- A file whose name does not start with `pmix-`. -/
def fileOther : FileEnt :=
  ⟨"idOther", "menu.pdf", .parsed true, fun _ => .success, fun _ => .success⟩

/-- The empty engine state. -/
def st0 : EngineSt := ⟨[], [], [], [], []⟩

/-- An invocation whose budget checks always read 0 ms elapsed. -/
def envQuick : InvEnv := ⟨none, fun _ => 0, "t0"⟩

/-- An invocation whose budget checks always read exactly
`hardLimit - safetyBuffer` (the boundary instant). -/
def envBoundary : InvEnv := ⟨none, fun _ => SAFE_MS, "t1"⟩

/-- A transient setup-phase error message (matches the predicate). -/
def SETUP_MSG : String :=
  "Exception: We\x27re sorry, a server error occurred. Please try again."

/-- An invocation whose setup phase throws the transient server error. -/
def envSetupTransient : InvEnv := ⟨some SETUP_MSG, fun _ => 0, "t2"⟩

/-- An attempt oracle on which every `insertAll` attempt fails transiently. -/
def attAllTransient : Nat → AttemptResult := fun _ => .failure TRANSIENT_SNIPPET

/-- Scenario B oracle: two transient failures, then success. -/
def attTransientTwice : Nat → AttemptResult :=
  fun i => if i < 2 then .failure TRANSIENT_SNIPPET else .success

/-- A state whose ledger already records `idOk` as Success. -/
def stLedgerOk : EngineSt := ⟨[("idOk", "true")], [], [], [], []⟩

/-- A state with one pending batch continuation. -/
def stOneTrigger : EngineSt := ⟨[], [("processPdfBatch", RETRY_MS)], [], [], []⟩

/-! ## Lemmas about the property store -/

theorem getProp_removeKey_self (ps : List (String × String)) (k : String) :
    getProp (removeKey ps k) k = none := by
  induction ps with
  | nil => rfl
  | cons p ps ih =>
    by_cases h1 : p.1 = k
    · simpa [removeKey, h1] using ih
    · simpa [removeKey, h1, getProp] using ih

theorem getProp_removeKey_ne {ps : List (String × String)} {k k' : String} (h : k ≠ k') :
    getProp (removeKey ps k) k' = getProp ps k' := by
  induction ps with
  | nil => rfl
  | cons p ps ih =>
    by_cases h1 : p.1 = k
    · rw [removeKey, if_pos h1, ih, getProp, if_neg (h1 ▸ h.symm ∘ Eq.symm)]
    · rw [removeKey, if_neg h1]
      by_cases h2 : p.1 = k'
      · simp [getProp, h2]
      · simp [getProp, h2, ih]

theorem getProp_set_self (ps : List (String × String)) (k v : String) :
    getProp (setProp ps k v) k = some v := by
  simp [setProp, getProp]

theorem getProp_set_ne {ps : List (String × String)} {k k' : String} (v : String) (h : k ≠ k') :
    getProp (setProp ps k v) k' = getProp ps k' := by
  simp only [setProp, getProp, if_neg h]
  exact getProp_removeKey_ne h

theorem getProp_del_self (ps : List (String × String)) (k : String) :
    getProp (delProp ps k) k = none :=
  getProp_removeKey_self ps k

theorem getProp_del_ne {ps : List (String × String)} {k k' : String} (h : k ≠ k') :
    getProp (delProp ps k) k' = getProp ps k' :=
  getProp_removeKey_ne h

/-! ## Lemmas about tokens, triggers and reserved keys -/

theorem encodeTok_ne_empty (n : Nat) : encodeTok n ≠ "" := by
  intro h
  have : (List.replicate (n + 1) 'x') = ([] : List Char) := by
    have := congrArg String.data h
    simp [encodeTok] at this
  simp at this

theorem decode_encodeTok (n : Nat) : decodeTok (encodeTok n) = n := by
  simp [decodeTok, encodeTok, String.toList]

theorem pending_cancel (trs : List (String × Nat)) :
    (cancelContinuations trs).filter (fun tr => tr.1 = "processPdfBatch") = [] := by
  induction trs with
  | nil => rfl
  | cons tr trs ih =>
    by_cases h : tr.1 = "processPdfBatch"
    · simp only [cancelContinuations, List.filter_cons] at ih ⊢
      simp [h, ih]
    · simp only [cancelContinuations, List.filter_cons] at ih ⊢
      simp [h, ih]

theorem pendingCount_of_cancel (st : EngineSt) (props ex sk sw) :
    pendingCount { props := props, triggers := cancelContinuations st.triggers,
                   extractions := ex, sinkSubs := sk, swallowed := sw } = 0 := by
  simp [pendingCount, pending_cancel]

theorem ingestion_mem_reserved : "ingestionStatus" ∈ RESERVED := by simp [RESERVED]

theorem count_mem_reserved : "processedCount" ∈ RESERVED := by simp [RESERVED]

theorem ts_mem_reserved : "lastRunTimestamp" ∈ RESERVED := by simp [RESERVED]

theorem token_mem_reserved : "continuationToken" ∈ RESERVED := by simp [RESERVED]

/-- A non-reserved key is distinct from each of the four reserved keys. -/
theorem ne_of_not_reserved {k : String} (h : k ∉ RESERVED) :
    k ≠ "ingestionStatus" ∧ k ≠ "processedCount" ∧
    k ≠ "lastRunTimestamp" ∧ k ≠ "continuationToken" := by
  refine ⟨?_, ?_, ?_, ?_⟩ <;> intro he <;> exact h (he ▸ (by simp [RESERVED]))

/-- `tokOf` only looks at the `continuationToken` key. -/
theorem tokOf_set_ne {props : List (String × String)} {k v : String}
    (h : k ≠ "continuationToken") : tokOf (setProp props k v) = tokOf props := by
  simp [tokOf, getProp_set_ne v h]

/-! ## Lemmas about `handleFile` -/

theorem handleFile_props_ne (f : FileEnt) (props : List (String × String)) (count : Nat)
    {k : String} (h1 : k ≠ f.id) (h2 : k ≠ "processedCount") (h3 : k ≠ "ingestionStatus") :
    getProp (handleFile f props count).props k = getProp props k := by
  unfold handleFile
  split
  · split
    · simp [getProp_set_ne _ (Ne.symm h2), getProp_set_ne _ (Ne.symm h1)]
    · simp [getProp_set_ne _ (Ne.symm h1)]
    · split
      · simp [getProp_set_ne _ (Ne.symm h1)]
      · simp [getProp_set_ne _ (Ne.symm h3)]
  · rfl

theorem handleFile_extractions (f : FileEnt) (props : List (String × String)) (count : Nat) :
    ∀ x ∈ (handleFile f props count).extractions, x = f.id := by
  unfold handleFile
  split
  · split <;> (try split) <;> simp
  · simp

theorem handleFile_sinkSubs (f : FileEnt) (props : List (String × String)) (count : Nat) :
    ∀ x ∈ (handleFile f props count).sinkSubs, x = f.id := by
  unfold handleFile
  split
  · split
    · dsimp only
      split <;> simp
    · simp
    · split <;> simp
  · simp

/-- `handleFile` writes, at non-reserved keys, only the three terminal
outcome values (and only at `f.id`). -/
theorem handleFile_W (f : FileEnt) (props : List (String × String)) (count : Nat)
    (hW : Wprop props) : Wprop (handleFile f props count).props := by
  intro k v hk hget
  obtain ⟨hs, hc, ht, htok⟩ := ne_of_not_reserved hk
  by_cases hid : k = f.id
  · subst hid
    unfold handleFile at hget
    revert hget
    split
    · split
      · rw [getProp_set_ne _ (Ne.symm hc), getProp_set_self]
        intro hv; cases hv; simp [terminalVal]
      · rw [getProp_set_self]
        intro hv; cases hv; simp [terminalVal]
      · split
        · rw [getProp_set_self]
          intro hv; cases hv; simp [terminalVal]
        · rw [getProp_set_ne _ (Ne.symm hs)]
          exact hW _ _ hk
    · exact hW _ _ hk
  · rw [handleFile_props_ne f props count hid hc hs] at hget
    exact hW _ _ hk hget

/-- A terminal ledger entry survives `handleFile` (it is either untouched or
overwritten by another terminal value). -/
theorem handleFile_keep_terminal (f : FileEnt) (props : List (String × String)) (count : Nat)
    {k w : String} (hk : k ∉ RESERVED) (hget : getProp props k = some w)
    (hterm : terminalVal w = true) :
    ∃ w', getProp (handleFile f props count).props k = some w' ∧ terminalVal w' = true := by
  obtain ⟨hs, hc, ht, htok⟩ := ne_of_not_reserved hk
  by_cases hid : k = f.id
  · subst hid
    unfold handleFile
    split
    · split
      · exact ⟨"true", by rw [getProp_set_ne _ (Ne.symm hc), getProp_set_self], by
          simp [terminalVal]⟩
      · exact ⟨"failed_to_parse", by rw [getProp_set_self], by simp [terminalVal]⟩
      · split
        · exact ⟨"timed_out", by rw [getProp_set_self], by simp [terminalVal]⟩
        · exact ⟨w, by rw [getProp_set_ne _ (Ne.symm hs)]; exact hget, hterm⟩
    · exact ⟨w, hget, hterm⟩
  · rw [handleFile_props_ne f props count hid hc hs]
    exact ⟨w, hget, hterm⟩

/-- A classifiable file that `handleFile` actually processes ends with a
terminal ledger entry at its id. -/
theorem handleFile_writes_terminal (f : FileEnt) (props : List (String × String)) (count : Nat)
    (hid : f.id ∉ RESERVED) (hgood : goodFile f = true) :
    ∃ v, getProp (handleFile f props count).props f.id = some v ∧ terminalVal v = true := by
  obtain ⟨hs, hc, ht, htok⟩ := ne_of_not_reserved hid
  have hgood2 := hgood
  unfold goodFile at hgood2
  rw [Bool.and_eq_true] at hgood2
  obtain ⟨hpmix, hrest⟩ := hgood2
  unfold handleFile
  rw [if_pos hpmix]
  cases hp : f.parse with
  | parsed valid =>
    exact ⟨"true", by simp [getProp_set_ne _ (Ne.symm hc), getProp_set_self], by
      simp [terminalVal]⟩
  | nullResult =>
    exact ⟨"failed_to_parse", by simp [getProp_set_self], by simp [terminalVal]⟩
  | raised m =>
    have hto : timedOutErr m = true := by rw [hp] at hrest; exact hrest
    simp only [hto, if_pos]
    exact ⟨"timed_out", by simp [getProp_set_self], by simp [terminalVal]⟩

/-- A file whose name does not start with `pmix-` is not touched at all. -/
theorem handleFile_nonpmix (f : FileEnt) (props : List (String × String)) (count : Nat)
    (h : strStarts f.name "pmix-" = false) :
    handleFile f props count =
      { props := props, count := count, extractions := [], sinkSubs := [], swallowed := [] } := by
  unfold handleFile
  simp [h]

theorem present_after_set {ps : List (String × String)} {k : String} (k' v : String)
    (h : (getProp ps k).isSome) : (getProp (setProp ps k' v) k).isSome := by
  by_cases hk : k' = k
  · subst hk; simp [getProp_set_self]
  · rw [getProp_set_ne _ hk]; exact h

/-- `handleFile` never deletes a property. -/
theorem handleFile_present (f : FileEnt) (props : List (String × String)) (count : Nat)
    (k : String) (h : (getProp props k).isSome) :
    (getProp (handleFile f props count).props k).isSome := by
  unfold handleFile
  split
  · split
    · exact present_after_set _ _ (present_after_set _ _ h)
    · exact present_after_set _ _ h
    · split
      · exact present_after_set _ _ h
      · exact present_after_set _ _ h
  · exact h

theorem count_zero_of_all_eq {l : List String} {a k : String}
    (hall : ∀ x ∈ l, x = a) (hne : a ≠ k) : l.count k = 0 := by
  rw [List.count_eq_zero]
  intro hmem
  exact hne (hall k hmem).symm

/-! ## Lemmas about `runLoop` -/

/-- A JS-truthy ledger entry at a non-reserved key is preserved verbatim by
the processing loop, and the loop neither extracts nor submits that key
again. -/
theorem runLoop_keep (e : Nat → Nat) (fs : List FileEnt) :
    ∀ (c i n : Nat) (st : EngineSt) {k v : String},
    k ∉ RESERVED → getProp st.props k = some v → v ≠ "" →
    getProp (runLoop e fs c i n st).props k = some v ∧
    (runLoop e fs c i n st).sinkSubs.count k = st.sinkSubs.count k ∧
    (runLoop e fs c i n st).extractions.count k = st.extractions.count k := by
  induction fs with
  | nil =>
    intro c i n st k v hk hget hne
    obtain ⟨hs, hc, ht, htok⟩ := ne_of_not_reserved hk
    refine ⟨?_, rfl, rfl⟩
    simp only [runLoop]
    rw [getProp_del_ne (Ne.symm htok), getProp_set_ne _ (Ne.symm hs)]
    exact hget
  | cons f rest ih =>
    intro c i n st k v hk hget hne
    obtain ⟨hs, hc, ht, htok⟩ := ne_of_not_reserved hk
    by_cases hexp : e i > SAFE_MS
    · simp only [runLoop, if_pos hexp]
      refine ⟨?_, trivial, trivial⟩
      rw [getProp_set_ne _ (Ne.symm hs), getProp_set_ne _ (Ne.symm htok)]
      exact hget
    · by_cases hpr : truthy (getProp st.props f.id) = true
      · simp only [runLoop, if_neg hexp, hpr, if_true]
        exact ih _ _ _ st hk hget hne
      · simp only [runLoop, if_neg hexp, hpr, Bool.false_eq_true, if_false]
        have hfid : f.id ≠ k := by
          intro hkk
          rw [hkk, hget] at hpr
          exact hpr (by simpa [truthy] using hne)
        have hkeep : getProp (handleFile f st.props n).props k = some v := by
          rw [handleFile_props_ne f st.props n (Ne.symm hfid) hc hs]
          exact hget
        obtain ⟨h1, h2, h3⟩ := ih (c + 1) (i + 1) (handleFile f st.props n).count
          { st with props := (handleFile f st.props n).props
                    extractions := st.extractions ++ (handleFile f st.props n).extractions
                    sinkSubs := st.sinkSubs ++ (handleFile f st.props n).sinkSubs
                    swallowed := st.swallowed ++ (handleFile f st.props n).swallowed }
          hk hkeep hne
        refine ⟨h1, ?_, ?_⟩
        · rw [h2]
          simp only [List.count_append]
          rw [count_zero_of_all_eq (handleFile_sinkSubs f st.props n) hfid, Nat.add_zero]
        · rw [h3]
          simp only [List.count_append]
          rw [count_zero_of_all_eq (handleFile_extractions f st.props n) hfid, Nat.add_zero]

/-- The loop never deletes a ledger entry (only `continuationToken` is ever
deleted, and only on the completion path). -/
theorem runLoop_present (e : Nat → Nat) (fs : List FileEnt) :
    ∀ (c i n : Nat) (st : EngineSt) {k : String},
    k ∉ RESERVED → (getProp st.props k).isSome →
    (getProp (runLoop e fs c i n st).props k).isSome := by
  induction fs with
  | nil =>
    intro c i n st k hk hget
    obtain ⟨hs, hc, ht, htok⟩ := ne_of_not_reserved hk
    simp only [runLoop]
    rw [getProp_del_ne (Ne.symm htok)]
    exact present_after_set _ _ hget
  | cons f rest ih =>
    intro c i n st k hk hget
    by_cases hexp : e i > SAFE_MS
    · simp only [runLoop, if_pos hexp]
      exact present_after_set _ _ (present_after_set _ _ hget)
    · by_cases hpr : truthy (getProp st.props f.id) = true
      · simp only [runLoop, if_neg hexp, hpr, if_true]
        exact ih _ _ _ st hk hget
      · simp only [runLoop, if_neg hexp, hpr, Bool.false_eq_true, if_false]
        exact ih _ _ _ _ hk (handleFile_present f st.props n k hget)

/-- An id that is absent from the ledger and belongs to no `pmix-` file of
the remaining enumeration stays absent, is never extracted and never
submitted to the sink. -/
theorem runLoop_none (e : Nat → Nat) (fs : List FileEnt) :
    ∀ (c i n : Nat) (st : EngineSt) {k : String},
    k ∉ RESERVED → getProp st.props k = none →
    (∀ g ∈ fs, g.id = k → strStarts g.name "pmix-" = false) →
    getProp (runLoop e fs c i n st).props k = none ∧
    (runLoop e fs c i n st).sinkSubs.count k = st.sinkSubs.count k ∧
    (runLoop e fs c i n st).extractions.count k = st.extractions.count k := by
  induction fs with
  | nil =>
    intro c i n st k hk hget _
    obtain ⟨hs, hc, ht, htok⟩ := ne_of_not_reserved hk
    refine ⟨?_, rfl, rfl⟩
    simp only [runLoop]
    rw [getProp_del_ne (Ne.symm htok), getProp_set_ne _ (Ne.symm hs)]
    exact hget
  | cons f rest ih =>
    intro c i n st k hk hget hnp
    obtain ⟨hs, hc, ht, htok⟩ := ne_of_not_reserved hk
    by_cases hexp : e i > SAFE_MS
    · simp only [runLoop, if_pos hexp]
      refine ⟨?_, trivial, trivial⟩
      rw [getProp_set_ne _ (Ne.symm hs), getProp_set_ne _ (Ne.symm htok)]
      exact hget
    · have hnp' : ∀ g ∈ rest, g.id = k → strStarts g.name "pmix-" = false :=
        fun g hg => hnp g (List.mem_cons_of_mem f hg)
      by_cases hpr : truthy (getProp st.props f.id) = true
      · simp only [runLoop, if_neg hexp, hpr, if_true]
        exact ih _ _ _ st hk hget hnp'
      · simp only [runLoop, if_neg hexp, hpr, Bool.false_eq_true, if_false]
        by_cases hfid : f.id = k
        · have hfx : strStarts f.name "pmix-" = false := hnp f (List.mem_cons_self f rest) hfid
          rw [handleFile_nonpmix f st.props n hfx]
          simpa using ih _ _ _ { st with props := st.props } hk hget hnp'
        · have hkeep : getProp (handleFile f st.props n).props k = none := by
            rw [handleFile_props_ne f st.props n (Ne.symm hfid) hc hs]
            exact hget
          obtain ⟨h1, h2, h3⟩ := ih (c + 1) (i + 1) (handleFile f st.props n).count
            { st with props := (handleFile f st.props n).props
                      extractions := st.extractions ++ (handleFile f st.props n).extractions
                      sinkSubs := st.sinkSubs ++ (handleFile f st.props n).sinkSubs
                      swallowed := st.swallowed ++ (handleFile f st.props n).swallowed }
            hk hkeep hnp'
          refine ⟨h1, ?_, ?_⟩
          · rw [h2]
            simp only [List.count_append]
            rw [count_zero_of_all_eq (handleFile_sinkSubs f st.props n) hfid, Nat.add_zero]
          · rw [h3]
            simp only [List.count_append]
            rw [count_zero_of_all_eq (handleFile_extractions f st.props n) hfid, Nat.add_zero]

/-- When no budget check ever trips, the loop runs the enumeration to the
end: status `Completed`, cursor cleared. -/
theorem runLoop_completes (e : Nat → Nat) (fs : List FileEnt)
    (hq : ∀ j, ¬ e j > SAFE_MS) :
    ∀ (c i n : Nat) (st : EngineSt),
    getProp (runLoop e fs c i n st).props "ingestionStatus" = some "Completed" ∧
    tokOf (runLoop e fs c i n st).props = none := by
  induction fs with
  | nil =>
    intro c i n st
    constructor
    · simp only [runLoop]
      rw [getProp_del_ne (by intro h; simp at h), getProp_set_self]
    · simp only [runLoop, tokOf, delProp]
      rw [getProp_removeKey_self]
  | cons f rest ih =>
    intro c i n st
    simp only [runLoop, if_neg (hq i)]
    by_cases hpr : truthy (getProp st.props f.id) = true
    · simp only [hpr, if_true]
      exact ih _ _ _ st
    · simp only [hpr, Bool.false_eq_true, if_false]
      exact ih _ _ _ _

/-- After the loop, at most one continuation is pending (it registers at
most one, always after cancelling all, and cancels them on completion). -/
theorem runLoop_pending (e : Nat → Nat) (fs : List FileEnt) :
    ∀ (c i n : Nat) (st : EngineSt),
    pendingCount (runLoop e fs c i n st) ≤ max 1 (pendingCount st) := by
  induction fs with
  | nil =>
    intro c i n st
    simp only [runLoop]
    rw [show pendingCount { st with
        props := delProp (setProp st.props "ingestionStatus" "Completed") "continuationToken"
        triggers := cancelContinuations st.triggers } =
      (cancelContinuations st.triggers).countP (fun tr => tr.1 = "processPdfBatch")
      from by simp [pendingCount, List.countP_eq_length_filter]]
    rw [List.countP_eq_length_filter, pending_cancel]
    simp
  | cons f rest ih =>
    intro c i n st
    by_cases hexp : e i > SAFE_MS
    · simp only [runLoop, if_pos hexp]
      have : pendingCount { st with
          props := setProp (setProp st.props "continuationToken" (encodeTok c)) "ingestionStatus"
            waitingMsg
          triggers := ("processPdfBatch", RETRY_MS) :: cancelContinuations st.triggers } =
          1 := by
        simp [pendingCount, List.filter_cons, pending_cancel]
      rw [this]
      exact le_max_left 1 _
    · by_cases hpr : truthy (getProp st.props f.id) = true
      · simp only [runLoop, if_neg hexp, hpr, if_true]
        exact ih _ _ _ st
      · simp only [runLoop, if_neg hexp, hpr, Bool.false_eq_true, if_false]
        exact ih _ _ _ _

/-! ## Ledger well-formedness and handled-prefix invariants -/

theorem Wprop_set_res {ps : List (String × String)} {k0 : String} (h0 : k0 ∈ RESERVED)
    (v : String) (hW : Wprop ps) : Wprop (setProp ps k0 v) := by
  intro k w hk hget
  have hne : k0 ≠ k := fun he => hk (he ▸ h0)
  rw [getProp_set_ne _ hne] at hget
  exact hW k w hk hget

theorem Wprop_del {ps : List (String × String)} (k0 : String) (hW : Wprop ps) :
    Wprop (delProp ps k0) := by
  intro k w hk hget
  by_cases hne : k0 = k
  · subst hne
    rw [getProp_del_self] at hget
    cases hget
  · rw [getProp_del_ne hne] at hget
    exact hW k w hk hget

theorem handledE_of_eq {props props' : List (String × String)} {f : FileEnt}
    (h : getProp props' f.id = getProp props f.id) (hh : handledE props f) :
    handledE props' f := by
  intro hg
  obtain ⟨v, hv, ht⟩ := hh hg
  exact ⟨v, h ▸ hv, ht⟩

theorem getProp_set_mem_res {ps : List (String × String)} {k k0 : String}
    (hk : k ∉ RESERVED) (h0 : k0 ∈ RESERVED) (v : String) :
    getProp (setProp ps k0 v) k = getProp ps k :=
  getProp_set_ne v (fun he => hk (he ▸ h0))

/-- Main exhaustiveness invariant of the loop.  Starting with `done`
consumed and fully handled, the loop (1) keeps the ledger well-formed,
(2) ends either with the cursor cleared and everything handled, or at a
safety stop whose cursor encodes a fully handled prefix, and (3) under a
budget that never trips, it always ends completed with everything handled. -/
theorem runLoop_handled (e : Nat → Nat) (fs : List FileEnt) :
    ∀ (done : List FileEnt) (i n : Nat) (st : EngineSt),
    Wprop st.props →
    (∀ f ∈ done ++ fs, f.id ∉ RESERVED) →
    (∀ f ∈ done, handledE st.props f) →
    Wprop (runLoop e fs done.length i n st).props ∧
    ((tokOf (runLoop e fs done.length i n st).props = none ∧
      ∀ f ∈ done ++ fs, handledE (runLoop e fs done.length i n st).props f) ∨
     (∃ d r, done ++ fs = d ++ r ∧
       tokOf (runLoop e fs done.length i n st).props = some (encodeTok d.length) ∧
       ∀ f ∈ d, handledE (runLoop e fs done.length i n st).props f)) ∧
    ((∀ j, ¬ e j > SAFE_MS) →
      tokOf (runLoop e fs done.length i n st).props = none ∧
      ∀ f ∈ done ++ fs, handledE (runLoop e fs done.length i n st).props f) := by
  induction fs with
  | nil =>
    intro done i n st hW hres hdone
    simp only [runLoop]
    have hprops : ∀ g : FileEnt, g.id ∉ RESERVED →
        getProp (delProp (setProp st.props "ingestionStatus" "Completed") "continuationToken")
          g.id = getProp st.props g.id := by
      intro g hg
      obtain ⟨hgs, _, _, hgt⟩ := ne_of_not_reserved hg
      rw [getProp_del_ne (Ne.symm hgt), getProp_set_ne _ (Ne.symm hgs)]
    have hhandled : ∀ f ∈ done ++ [], handledE
        (delProp (setProp st.props "ingestionStatus" "Completed") "continuationToken") f := by
      intro f hf
      rw [List.append_nil] at hf
      exact handledE_of_eq (hprops f (hres f (by simp [hf]))) (hdone f hf)
    refine ⟨Wprop_del _ (Wprop_set_res ingestion_mem_reserved _ hW), ?_, ?_⟩
    · left
      refine ⟨?_, hhandled⟩
      simp [tokOf, delProp, getProp_removeKey_self]
    · intro _
      refine ⟨?_, hhandled⟩
      simp [tokOf, delProp, getProp_removeKey_self]
  | cons f rest ih =>
    intro done i n st hW hres hdone
    have hfid : f.id ∉ RESERVED := hres f (by simp)
    obtain ⟨hfs, hfc, hft, hftok⟩ := ne_of_not_reserved hfid
    by_cases hexp : e i > SAFE_MS
    · simp only [runLoop, if_pos hexp]
      have hprops : ∀ g : FileEnt, g.id ∉ RESERVED →
          getProp (setProp (setProp st.props "continuationToken" (encodeTok done.length))
            "ingestionStatus" waitingMsg) g.id = getProp st.props g.id := by
        intro g hg
        obtain ⟨hgs, _, _, hgt⟩ := ne_of_not_reserved hg
        rw [getProp_set_ne _ (Ne.symm hgs), getProp_set_ne _ (Ne.symm hgt)]
      refine ⟨Wprop_set_res ingestion_mem_reserved _
        (Wprop_set_res token_mem_reserved _ hW), ?_, ?_⟩
      · right
        refine ⟨done, f :: rest, rfl, ?_, ?_⟩
        · rw [show tokOf (setProp (setProp st.props "continuationToken"
              (encodeTok done.length)) "ingestionStatus" waitingMsg) =
            tokOf (setProp st.props "continuationToken" (encodeTok done.length))
            from tokOf_set_ne (by intro h; simp at h)]
          simp [tokOf, getProp_set_self, encodeTok_ne_empty done.length]
        · intro g hg
          exact handledE_of_eq (hprops g (hres g (by simp [hg]))) (hdone g hg)
      · intro hq
        exact absurd hexp (hq i)
    · by_cases hpr : truthy (getProp st.props f.id) = true
      · -- ledger skip: f is already terminally classified
        simp only [runLoop, if_neg hexp, hpr, if_true]
        have hf : handledE st.props f := by
          intro _
          cases hv : getProp st.props f.id with
          | none => rw [hv] at hpr; simp [truthy] at hpr
          | some v =>
            exact ⟨v, rfl, hW f.id v hfid hv⟩
        have hlen : done.length + 1 = (done ++ [f]).length := by simp
        rw [hlen]
        have hres' : ∀ g ∈ (done ++ [f]) ++ rest, g.id ∉ RESERVED := by
          intro g hg
          apply hres g
          simpa using hg
        have hdone' : ∀ g ∈ done ++ [f], handledE st.props g := by
          intro g hg
          rcases List.mem_append.mp hg with h | h
          · exact hdone g h
          · rw [List.mem_singleton] at h
            subst h
            exact hf
        obtain ⟨hW', hd, hc3⟩ := ih (done ++ [f]) (i + 1) n st hW hres' hdone'
        have hperm : (done ++ [f]) ++ rest = done ++ f :: rest := by simp
        rw [hperm] at hd hc3
        exact ⟨hW', hd, hc3⟩
      · -- process f
        simp only [runLoop, if_neg hexp, hpr, Bool.false_eq_true, if_false]
        have hlen : done.length + 1 = (done ++ [f]).length := by simp
        rw [hlen]
        have hW1 : Wprop (handleFile f st.props n).props := handleFile_W f st.props n hW
        have hres' : ∀ g ∈ (done ++ [f]) ++ rest, g.id ∉ RESERVED := by
          intro g hg
          apply hres g
          simpa using hg
        have hdone' : ∀ g ∈ done ++ [f], handledE (handleFile f st.props n).props g := by
          intro g hg
          rcases List.mem_append.mp hg with h | h
          · intro hgood
            obtain ⟨v, hv, ht⟩ := hdone g h hgood
            exact handleFile_keep_terminal f st.props n (hres g (by simp [h])) hv ht
          · rw [List.mem_singleton] at h
            intro hgood
            rw [h] at hgood
            rw [h]
            exact handleFile_writes_terminal f st.props n hfid hgood
        obtain ⟨hW', hd, hc3⟩ := ih (done ++ [f]) (i + 1) (handleFile f st.props n).count
          { st with props := (handleFile f st.props n).props
                    extractions := st.extractions ++ (handleFile f st.props n).extractions
                    sinkSubs := st.sinkSubs ++ (handleFile f st.props n).sinkSubs
                    swallowed := st.swallowed ++ (handleFile f st.props n).swallowed }
          hW1 hres' hdone'
        have hperm : (done ++ [f]) ++ rest = done ++ f :: rest := by simp
        rw [hperm] at hd hc3
        exact ⟨hW', hd, hc3⟩

/-- `runLoop_handled` restated for an arbitrary consumed-count argument. -/
theorem runLoop_handled2 (e : Nat → Nat) (fs done : List FileEnt) (c i n : Nat) (st : EngineSt)
    (hc : c = done.length)
    (hW : Wprop st.props)
    (hres : ∀ f ∈ done ++ fs, f.id ∉ RESERVED)
    (hdone : ∀ f ∈ done, handledE st.props f) :
    Wprop (runLoop e fs c i n st).props ∧
    ((tokOf (runLoop e fs c i n st).props = none ∧
      ∀ f ∈ done ++ fs, handledE (runLoop e fs c i n st).props f) ∨
     (∃ d r, done ++ fs = d ++ r ∧
       tokOf (runLoop e fs c i n st).props = some (encodeTok d.length) ∧
       ∀ f ∈ d, handledE (runLoop e fs c i n st).props f)) ∧
    ((∀ j, ¬ e j > SAFE_MS) →
      tokOf (runLoop e fs c i n st).props = none ∧
      ∀ f ∈ done ++ fs, handledE (runLoop e fs c i n st).props f) := by
  subst hc
  exact runLoop_handled e fs done i n st hW hres hdone

/-- `invC3` is stable under writing any reserved key other than the cursor. -/
theorem invC3_set_res (files : List FileEnt) (props : List (String × String))
    (k0 v : String) (h0 : k0 ∈ RESERVED) (h0t : k0 ≠ "continuationToken")
    (hres : ∀ f ∈ files, f.id ∉ RESERVED)
    (h : invC3 files props) : invC3 files (setProp props k0 v) := by
  obtain ⟨hW, ht⟩ := h
  refine ⟨Wprop_set_res h0 v hW, ?_⟩
  rw [tokOf_set_ne h0t]
  cases ht with
  | inl hn => exact Or.inl hn
  | inr hr =>
    obtain ⟨t, hle, htk, hh⟩ := hr
    right
    refine ⟨t, hle, htk, ?_⟩
    intro g hg
    have hg' : g ∈ files := List.take_subset t files hg
    exact handledE_of_eq (getProp_set_mem_res (hres g hg') h0 v) (hh g hg)

/-- The enumeration body preserves the cursor invariant. -/
theorem batchBody_inv (files : List FileEnt) (e : Nat → Nat) (count : Nat) (st : EngineSt)
    (hres : ∀ f ∈ files, f.id ∉ RESERVED) (h : invC3 files st.props) :
    invC3 files (batchBody files e count st).props := by
  obtain ⟨hW, htok⟩ := h
  unfold batchBody
  by_cases hearly : (remainingOf files st.props).isEmpty = true ∧ tokOf st.props = none
  · rw [if_pos hearly]
    refine ⟨Wprop_set_res ingestion_mem_reserved _ hW, Or.inl ?_⟩
    rw [tokOf_set_ne (by intro hx; simp at hx)]
    exact hearly.2
  · rw [if_neg hearly]
    cases htok with
    | inl hnone =>
      have hrem : remainingOf files st.props = files := by simp [remainingOf, hnone]
      have hcons : consumedOf st.props = 0 := by simp [consumedOf, hnone]
      rw [hrem, hcons]
      obtain ⟨hW', hd, _⟩ := runLoop_handled2 e files [] 0 0 count st rfl hW
        (by simpa using hres) (by simp)
      refine ⟨hW', ?_⟩
      rcases hd with ⟨ht', _⟩ | ⟨d, r, hdr, ht', hh⟩
      · exact Or.inl ht'
      · right
        have hfiles : files = d ++ r := by simpa using hdr
        refine ⟨d.length, by rw [hfiles]; simp, ht', ?_⟩
        intro g hg
        apply hh
        rw [hfiles, List.take_left] at hg
        exact hg
    | inr hr =>
      obtain ⟨t, hle, ht, hh⟩ := hr
      have hrem : remainingOf files st.props = files.drop t := by
        simp [remainingOf, ht, decode_encodeTok]
      have hcons : consumedOf st.props = t := by simp [consumedOf, ht, decode_encodeTok]
      rw [hrem, hcons]
      have hlen : t = (files.take t).length := by rw [List.length_take]; omega
      obtain ⟨hW', hd, _⟩ := runLoop_handled2 e (files.drop t) (files.take t) t 0 count st hlen
        hW (by rw [List.take_append_drop]; exact hres) hh
      rw [List.take_append_drop] at hd
      refine ⟨hW', ?_⟩
      rcases hd with ⟨ht', _⟩ | ⟨d, r, hdr, ht', hh'⟩
      · exact Or.inl ht'
      · right
        refine ⟨d.length, by rw [hdr]; simp, ht', ?_⟩
        intro g hg
        apply hh'
        rw [hdr, List.take_left] at hg
        exact hg

/-- When no budget check trips, the enumeration body of a non-empty pass
finishes `Completed` with every classifiable file terminally ledgered. -/
theorem batchBody_completes (files : List FileEnt) (e : Nat → Nat) (count : Nat) (st : EngineSt)
    (hres : ∀ f ∈ files, f.id ∉ RESERVED) (h : invC3 files st.props)
    (hq : ∀ j, ¬ e j > SAFE_MS) (hfne : files ≠ []) :
    getProp (batchBody files e count st).props "ingestionStatus" = some "Completed" ∧
    ∀ f ∈ files, handledE (batchBody files e count st).props f := by
  obtain ⟨hW, htok⟩ := h
  unfold batchBody
  have hnotearly : ¬ ((remainingOf files st.props).isEmpty = true ∧ tokOf st.props = none) := by
    rintro ⟨he, hn⟩
    rw [show remainingOf files st.props = files from by simp [remainingOf, hn]] at he
    exact hfne (List.isEmpty_iff.mp he)
  rw [if_neg hnotearly]
  cases htok with
  | inl hnone =>
    have hrem : remainingOf files st.props = files := by simp [remainingOf, hnone]
    have hcons : consumedOf st.props = 0 := by simp [consumedOf, hnone]
    rw [hrem, hcons]
    obtain ⟨_, _, hc3⟩ := runLoop_handled2 e files [] 0 0 count st rfl hW
      (by simpa using hres) (by simp)
    obtain ⟨_, hall⟩ := hc3 hq
    exact ⟨(runLoop_completes e files hq 0 0 count st).1, by simpa using hall⟩
  | inr hr =>
    obtain ⟨t, hle, ht, hh⟩ := hr
    have hrem : remainingOf files st.props = files.drop t := by
      simp [remainingOf, ht, decode_encodeTok]
    have hcons : consumedOf st.props = t := by simp [consumedOf, ht, decode_encodeTok]
    rw [hrem, hcons]
    have hlen : t = (files.take t).length := by rw [List.length_take]; omega
    obtain ⟨_, _, hc3⟩ := runLoop_handled2 e (files.drop t) (files.take t) t 0 count st hlen
      hW (by rw [List.take_append_drop]; exact hres) hh
    obtain ⟨_, hall⟩ := hc3 hq
    rw [List.take_append_drop] at hall
    exact ⟨(runLoop_completes e (files.drop t) hq t 0 count st).1, hall⟩

/-- A full invocation preserves the cursor invariant, whatever the
environment does (setup errors, interruptions, resumptions). -/
theorem processPdfBatch_inv (files : List FileEnt) (env : InvEnv) (st : EngineSt)
    (hres : ∀ f ∈ files, f.id ∉ RESERVED) (h : invC3 files st.props) :
    invC3 files (processPdfBatch files env st).props := by
  unfold processPdfBatch
  cases hse : env.setupErr with
  | some m =>
    simp only [hse]
    by_cases htr : transientErr m = true
    · rw [if_pos htr]
      exact invC3_set_res files _ _ _ ingestion_mem_reserved (by intro hx; simp at hx) hres
        (invC3_set_res files _ _ _ ts_mem_reserved (by intro hx; simp at hx) hres
          (invC3_set_res files _ _ _ ingestion_mem_reserved (by intro hx; simp at hx) hres h))
    · rw [if_neg htr]
      exact invC3_set_res files _ _ _ ingestion_mem_reserved (by intro hx; simp at hx) hres
        (invC3_set_res files _ _ _ ts_mem_reserved (by intro hx; simp at hx) hres
          (invC3_set_res files _ _ _ ingestion_mem_reserved (by intro hx; simp at hx) hres h))
  | none =>
    simp only [hse]
    exact batchBody_inv files env.elapsedMs _ _ hres
      (invC3_set_res files _ _ _ ts_mem_reserved (by intro hx; simp at hx) hres
        (invC3_set_res files _ _ _ ingestion_mem_reserved (by intro hx; simp at hx) hres h))

/-- An uninterrupted, setup-error-free invocation of a non-empty pass ends
`Completed` with every classifiable file terminally ledgered. -/
theorem processPdfBatch_completes (files : List FileEnt) (env : InvEnv) (st : EngineSt)
    (hres : ∀ f ∈ files, f.id ∉ RESERVED) (h : invC3 files st.props)
    (hsetup : env.setupErr = none) (hq : ∀ j, ¬ env.elapsedMs j > SAFE_MS)
    (hfne : files ≠ []) :
    getProp (processPdfBatch files env st).props "ingestionStatus" = some "Completed" ∧
    ∀ f ∈ files, handledE (processPdfBatch files env st).props f := by
  unfold processPdfBatch
  simp only [hsetup]
  exact batchBody_completes files env.elapsedMs _ _ hres
    (invC3_set_res files _ _ _ ts_mem_reserved (by intro hx; simp at hx) hres
      (invC3_set_res files _ _ _ ingestion_mem_reserved (by intro hx; simp at hx) hres h))
    hq hfne

/-- Any sequence of invocations preserves the cursor invariant. -/
theorem runBatches_inv (files : List FileEnt) (envs : List InvEnv) (st : EngineSt)
    (hres : ∀ f ∈ files, f.id ∉ RESERVED) (h : invC3 files st.props) :
    invC3 files (runBatches files envs st).props := by
  induction envs generalizing st with
  | nil => exact h
  | cons env envs ih =>
    exact ih (processPdfBatch files env st) (processPdfBatch_inv files env st hres h)

/-- A fresh manual start establishes the cursor invariant. -/
theorem startPrep_inv (files : List FileEnt) (nowStr : String) (st : EngineSt) :
    invC3 files (startPrep nowStr st).props := by
  constructor
  · intro k v hk hget
    obtain ⟨hs, hc, ht, htok⟩ := ne_of_not_reserved hk
    rw [startPrep] at hget
    simp only at hget
    rw [getProp_set_ne _ (Ne.symm ht), getProp_set_ne _ (Ne.symm hc),
      getProp_set_ne _ (Ne.symm hs)] at hget
    cases hget
  · left
    rw [startPrep]
    simp only [tokOf]
    rw [getProp_set_ne _ (by intro hx; simp at hx), getProp_set_ne _ (by intro hx; simp at hx),
      getProp_set_ne _ (by intro hx; simp at hx)]
    rfl

/-- Unfolding of `runBatches` over a cons. -/
theorem runBatches_cons (files : List FileEnt) (env : InvEnv) (envs : List InvEnv)
    (st : EngineSt) :
    runBatches files (env :: envs) st = runBatches files envs (processPdfBatch files env st) :=
  rfl

/-! ## Per-invocation frame lemmas -/

/-- A truthy ledger entry survives the enumeration body verbatim, with no
further extraction or sink submission of its key. -/
theorem batchBody_keep (files : List FileEnt) (e : Nat → Nat) (count : Nat) (st : EngineSt)
    {k v : String} (hk : k ∉ RESERVED) (hget : getProp st.props k = some v) (hne : v ≠ "") :
    getProp (batchBody files e count st).props k = some v ∧
    (batchBody files e count st).sinkSubs.count k = st.sinkSubs.count k ∧
    (batchBody files e count st).extractions.count k = st.extractions.count k := by
  obtain ⟨hs, hc, ht, htok⟩ := ne_of_not_reserved hk
  unfold batchBody
  by_cases hearly : (remainingOf files st.props).isEmpty = true ∧ tokOf st.props = none
  · rw [if_pos hearly]
    exact ⟨by rw [getProp_set_ne _ (Ne.symm hs)]; exact hget, rfl, rfl⟩
  · rw [if_neg hearly]
    exact runLoop_keep e (remainingOf files st.props) _ _ _ st hk hget hne

/-- A truthy ledger entry survives a full invocation verbatim, and the
invocation neither extracts nor submits its key. -/
theorem processPdfBatch_keep (files : List FileEnt) (env : InvEnv) (st : EngineSt)
    {k v : String} (hk : k ∉ RESERVED) (hget : getProp st.props k = some v) (hne : v ≠ "") :
    getProp (processPdfBatch files env st).props k = some v ∧
    (processPdfBatch files env st).sinkSubs.count k = st.sinkSubs.count k ∧
    (processPdfBatch files env st).extractions.count k = st.extractions.count k := by
  obtain ⟨hs, hc, ht, htok⟩ := ne_of_not_reserved hk
  have hget0 : getProp (setProp (setProp st.props "ingestionStatus" "Running...")
      "lastRunTimestamp" env.nowStr) k = some v := by
    rw [getProp_set_ne _ (Ne.symm ht), getProp_set_ne _ (Ne.symm hs)]
    exact hget
  unfold processPdfBatch
  cases hse : env.setupErr with
  | some m =>
    simp only [hse]
    by_cases htr : transientErr m = true
    · rw [if_pos htr]
      exact ⟨by rw [getProp_set_ne _ (Ne.symm hs)]; exact hget0, rfl, rfl⟩
    · rw [if_neg htr]
      exact ⟨by rw [getProp_set_ne _ (Ne.symm hs)]; exact hget0, rfl, rfl⟩
  | none =>
    simp only [hse]
    exact batchBody_keep files env.elapsedMs _ _ hk hget0 hne

/-- Truthy entries survive any sequence of invocations, never re-extracted
and never re-submitted. -/
theorem runBatches_keep (files : List FileEnt) (envs : List InvEnv) (st : EngineSt)
    {k v : String} (hk : k ∉ RESERVED) (hget : getProp st.props k = some v) (hne : v ≠ "") :
    getProp (runBatches files envs st).props k = some v ∧
    (runBatches files envs st).sinkSubs.count k = st.sinkSubs.count k ∧
    (runBatches files envs st).extractions.count k = st.extractions.count k := by
  induction envs generalizing st with
  | nil => exact ⟨hget, rfl, rfl⟩
  | cons env envs ih =>
    obtain ⟨h1, h2, h3⟩ := processPdfBatch_keep files env st hk hget hne
    obtain ⟨g1, g2, g3⟩ := ih (processPdfBatch files env st) h1
    exact ⟨g1, by rw [runBatches_cons, g2, h2], by rw [runBatches_cons, g3, h3]⟩

/-- An invocation never deletes a ledger entry. -/
theorem processPdfBatch_present (files : List FileEnt) (env : InvEnv) (st : EngineSt)
    {k : String} (hk : k ∉ RESERVED) (hget : (getProp st.props k).isSome) :
    (getProp (processPdfBatch files env st).props k).isSome := by
  have hget0 : (getProp (setProp (setProp st.props "ingestionStatus" "Running...")
      "lastRunTimestamp" env.nowStr) k).isSome :=
    present_after_set _ _ (present_after_set _ _ hget)
  unfold processPdfBatch
  cases hse : env.setupErr with
  | some m =>
    simp only [hse]
    by_cases htr : transientErr m = true
    · rw [if_pos htr]
      exact present_after_set _ _ hget0
    · rw [if_neg htr]
      exact present_after_set _ _ hget0
  | none =>
    simp only [hse]
    unfold batchBody
    by_cases hearly : (remainingOf files (setProp (setProp st.props "ingestionStatus"
        "Running...") "lastRunTimestamp" env.nowStr)).isEmpty = true ∧
        tokOf (setProp (setProp st.props "ingestionStatus" "Running...")
          "lastRunTimestamp" env.nowStr) = none
    · rw [if_pos hearly]
      exact present_after_set _ _ hget0
    · rw [if_neg hearly]
      exact runLoop_present env.elapsedMs _ _ _ _ _ hk hget0

/-- An id that no `pmix-` file of the pass carries is never extracted,
never submitted to the sink, and never acquires a ledger entry. -/
theorem processPdfBatch_none (files : List FileEnt) (env : InvEnv) (st : EngineSt)
    {k : String} (hk : k ∉ RESERVED) (hget : getProp st.props k = none)
    (hnp : ∀ g ∈ files, g.id = k → strStarts g.name "pmix-" = false) :
    getProp (processPdfBatch files env st).props k = none ∧
    (processPdfBatch files env st).sinkSubs.count k = st.sinkSubs.count k ∧
    (processPdfBatch files env st).extractions.count k = st.extractions.count k := by
  obtain ⟨hs, hc, ht, htok⟩ := ne_of_not_reserved hk
  have hget0 : getProp (setProp (setProp st.props "ingestionStatus" "Running...")
      "lastRunTimestamp" env.nowStr) k = none := by
    rw [getProp_set_ne _ (Ne.symm ht), getProp_set_ne _ (Ne.symm hs)]
    exact hget
  unfold processPdfBatch
  cases hse : env.setupErr with
  | some m =>
    simp only [hse]
    by_cases htr : transientErr m = true
    · rw [if_pos htr]
      exact ⟨by rw [getProp_set_ne _ (Ne.symm hs)]; exact hget0, rfl, rfl⟩
    · rw [if_neg htr]
      exact ⟨by rw [getProp_set_ne _ (Ne.symm hs)]; exact hget0, rfl, rfl⟩
  | none =>
    simp only [hse]
    unfold batchBody
    by_cases hearly : (remainingOf files (setProp (setProp st.props "ingestionStatus"
        "Running...") "lastRunTimestamp" env.nowStr)).isEmpty = true ∧
        tokOf (setProp (setProp st.props "ingestionStatus" "Running...")
          "lastRunTimestamp" env.nowStr) = none
    · rw [if_pos hearly]
      exact ⟨by rw [getProp_set_ne _ (Ne.symm hs)]; exact hget0, rfl, rfl⟩
    · rw [if_neg hearly]
      refine runLoop_none env.elapsedMs _ _ _ _ _ hk hget0 ?_
      intro g hg
      apply hnp g
      unfold remainingOf at hg
      rcases hx : tokOf (setProp (setProp st.props "ingestionStatus" "Running...")
          "lastRunTimestamp" env.nowStr) with _ | t
      · rw [hx] at hg
        exact hg
      · rw [hx] at hg
        exact List.drop_subset _ files hg

/-- Unclassified ids of non-`pmix-` files stay unclassified across any
sequence of invocations, never extracted, never submitted. -/
theorem runBatches_none (files : List FileEnt) (envs : List InvEnv) (st : EngineSt)
    {k : String} (hk : k ∉ RESERVED) (hget : getProp st.props k = none)
    (hnp : ∀ g ∈ files, g.id = k → strStarts g.name "pmix-" = false) :
    getProp (runBatches files envs st).props k = none ∧
    (runBatches files envs st).sinkSubs.count k = st.sinkSubs.count k ∧
    (runBatches files envs st).extractions.count k = st.extractions.count k := by
  induction envs generalizing st with
  | nil => exact ⟨hget, rfl, rfl⟩
  | cons env envs ih =>
    obtain ⟨h1, h2, h3⟩ := processPdfBatch_none files env st hk hget hnp
    obtain ⟨g1, g2, g3⟩ := ih (processPdfBatch files env st) h1
    exact ⟨g1, by rw [runBatches_cons, g2, h2], by rw [runBatches_cons, g3, h3]⟩

/-- A single invocation leaves at most one pending continuation whenever it
starts with at most one (and every path that registers cancels first). -/
theorem processPdfBatch_pending (files : List FileEnt) (env : InvEnv) (st : EngineSt) :
    pendingCount (processPdfBatch files env st) ≤ max 1 (pendingCount st) := by
  unfold processPdfBatch
  cases hse : env.setupErr with
  | some m =>
    simp only [hse]
    by_cases htr : transientErr m = true
    · rw [if_pos htr]
      have : pendingCount { st with
          props := setProp (setProp (setProp st.props "ingestionStatus" "Running...")
            "lastRunTimestamp" env.nowStr) "ingestionStatus" ("Failed: " ++ m)
          triggers := ("processPdfBatch", RETRY_MS) :: cancelContinuations st.triggers } = 1 := by
        simp [pendingCount, List.filter_cons, pending_cancel]
      rw [this]
      exact le_max_left 1 _
    · rw [if_neg htr]
      have : pendingCount { st with
          props := setProp (setProp (setProp st.props "ingestionStatus" "Running...")
            "lastRunTimestamp" env.nowStr) "ingestionStatus" ("Failed: " ++ m)
          triggers := cancelContinuations st.triggers } = 0 := by
        simp [pendingCount, pending_cancel]
      rw [this]
      exact Nat.zero_le _
  | none =>
    simp only [hse]
    unfold batchBody
    by_cases hearly : (remainingOf files (setProp (setProp st.props "ingestionStatus"
        "Running...") "lastRunTimestamp" env.nowStr)).isEmpty = true ∧
        tokOf (setProp (setProp st.props "ingestionStatus" "Running...")
          "lastRunTimestamp" env.nowStr) = none
    · rw [if_pos hearly]
      exact le_max_right 1 _
    · rw [if_neg hearly]
      exact runLoop_pending env.elapsedMs _ _ _ _ _

/-- At most one continuation stays pending across any invocation sequence. -/
theorem runBatches_pending (files : List FileEnt) (envs : List InvEnv) (st : EngineSt)
    (h : pendingCount st ≤ 1) : pendingCount (runBatches files envs st) ≤ 1 := by
  induction envs generalizing st with
  | nil => exact h
  | cons env envs ih =>
    refine ih (processPdfBatch files env st) ?_
    have := processPdfBatch_pending files env st
    have hmax : max 1 (pendingCount st) = 1 := by omega
    omega

/-- A fresh manual start leaves no ledger entries at all. -/
theorem startPrep_none (nowStr : String) (st : EngineSt) {k : String} (hk : k ∉ RESERVED) :
    getProp (startPrep nowStr st).props k = none := by
  obtain ⟨hs, hc, ht, _⟩ := ne_of_not_reserved hk
  rw [startPrep]
  simp only
  rw [getProp_set_ne _ (Ne.symm ht), getProp_set_ne _ (Ne.symm hc),
    getProp_set_ne _ (Ne.symm hs)]
  rfl

/-! ## Lemmas about `insertWithRetry` -/

theorem insertLoop_attempts (att : Nat → AttemptResult) (t : String) :
    ∀ (r i d : Nat) (s : List Nat), (insertLoop att t r i d s).attemptsMade ≤ i + r := by
  intro r
  induction r with
  | zero =>
    intro i d s
    rw [insertLoop]
    show i ≤ i + 0
    omega
  | succ r ih =>
    intro i d s
    rw [insertLoop]
    cases hatt : att i with
    | success =>
      show i + 1 ≤ i + (r + 1)
      omega
    | failure m =>
      by_cases htr : transientErr m = true
      · dsimp only
        rw [if_pos htr]
        have := ih (i + 1) (d * 2) (d :: s)
        omega
      · dsimp only
        rw [if_neg htr]
        show i + 1 ≤ i + (r + 1)
        omega

/-- A first attempt failing non-transiently is rethrown immediately:
one attempt, no sleep. -/
theorem insertWithRetry_fatal (att : Nat → AttemptResult) (t : String) (m : String)
    (h0 : att 0 = .failure m) (hnt : transientErr m = false) :
    insertWithRetry att t = ⟨.error m, 1, []⟩ := by
  rw [insertWithRetry, insertLoop, h0]
  simp [hnt]

/-- A first successful attempt returns at once. -/
theorem insertWithRetry_firstOk (att : Nat → AttemptResult) (t : String)
    (h0 : att 0 = .success) :
    insertWithRetry att t = ⟨.ok (), 1, []⟩ := by
  rw [insertWithRetry, insertLoop, h0]
  rfl

/-- Four transient failures exhaust the retries: the exhaustion error is
thrown after 4 attempts, with backoff sleeps 1s, 2s, 4s (and a final wasted
8s sleep after the fourth failure). -/
theorem insertWithRetry_exhaust (att : Nat → AttemptResult) (t : String)
    (h : ∀ i, i < 4 → ∃ m, att i = .failure m ∧ transientErr m = true) :
    insertWithRetry att t = ⟨.error (exhaustMsg t), 4, [1000, 2000, 4000, 8000]⟩ := by
  obtain ⟨m0, h0, t0⟩ := h 0 (by omega)
  obtain ⟨m1, h1, t1⟩ := h 1 (by omega)
  obtain ⟨m2, h2, t2⟩ := h 2 (by omega)
  obtain ⟨m3, h3, t3⟩ := h 3 (by omega)
  have e0 : insertWithRetry att t = insertLoop att t 3 1 2000 [1000] := by
    rw [insertWithRetry, insertLoop, h0]
    simp [t0]
  have e1 : insertLoop att t 3 1 2000 [1000] = insertLoop att t 2 2 4000 [2000, 1000] := by
    rw [insertLoop, h1]
    simp [t1]
  have e2 : insertLoop att t 2 2 4000 [2000, 1000] =
      insertLoop att t 1 3 8000 [4000, 2000, 1000] := by
    rw [insertLoop, h2]
    simp [t2]
  have e3 : insertLoop att t 1 3 8000 [4000, 2000, 1000] =
      ⟨.error (exhaustMsg t), 4, [1000, 2000, 4000, 8000]⟩ := by
    rw [insertLoop, h3]
    simp only [t3, if_true]
    rw [insertLoop]
    rfl
  rw [e0, e1, e2, e3]

/-- After `k ≤ 4` leading transient failures, the retry loop stands at
attempt `k` with doubled backoff `1000 * 2^k` and the geometric sleeps
`1000 * 2^0, …, 1000 * 2^(k-1)` already performed. -/
theorem insertLoop_skip_transient (att : Nat → AttemptResult) (t : String) :
    ∀ k, k ≤ 4 → (∀ i, i < k → ∃ m, att i = .failure m ∧ transientErr m = true) →
    insertWithRetry att t =
      insertLoop att t (4 - k) k (1000 * 2 ^ k)
        (((List.range k).map (fun i => 1000 * 2 ^ i)).reverse) := by
  intro k
  induction k with
  | zero =>
    intro _ _
    simp [insertWithRetry]
  | succ k ih =>
    intro hk h
    obtain ⟨m, hm, htm⟩ := h k (by omega)
    rw [ih (by omega) (fun i hi => h i (by omega))]
    have hfuel : 4 - k = (4 - (k + 1)) + 1 := by omega
    rw [hfuel, insertLoop, hm]
    simp only [htm, if_true]
    have hdelay : 1000 * 2 ^ k * 2 = 1000 * 2 ^ (k + 1) := by ring
    have hlist : 1000 * 2 ^ k :: ((List.range k).map (fun i => 1000 * 2 ^ i)).reverse =
        ((List.range (k + 1)).map (fun i => 1000 * 2 ^ i)).reverse := by
      rw [List.range_succ, List.map_append, List.reverse_append]
      simp
    rw [hdelay, hlist]

/-- A success on attempt `k` (k < 4) after `k` transient failures returns
after `k + 1` attempts with the geometric sleeps performed. -/
theorem insertWithRetry_succeeds_after (att : Nat → AttemptResult) (t : String) (k : Nat)
    (hk : k < 4) (h : ∀ i, i < k → ∃ m, att i = .failure m ∧ transientErr m = true)
    (hs : att k = .success) :
    insertWithRetry att t =
      ⟨.ok (), k + 1, (List.range k).map (fun i => 1000 * 2 ^ i)⟩ := by
  rw [insertLoop_skip_transient att t k (by omega) h]
  have hfuel : 4 - k = (4 - (k + 1)) + 1 := by omega
  rw [hfuel, insertLoop, hs]
  simp

/-- A non-transient failure on attempt `k` (k < 4) after `k` transient
failures is rethrown at once: `k + 1` attempts, no extra sleep, no retry. -/
theorem insertWithRetry_fatal_after (att : Nat → AttemptResult) (t : String) (k : Nat)
    (m : String) (hk : k < 4)
    (h : ∀ i, i < k → ∃ w, att i = .failure w ∧ transientErr w = true)
    (hm : att k = .failure m) (hnt : transientErr m = false) :
    insertWithRetry att t =
      ⟨.error m, k + 1, (List.range k).map (fun i => 1000 * 2 ^ i)⟩ := by
  rw [insertLoop_skip_transient att t k (by omega) h]
  have hfuel : 4 - k = (4 - (k + 1)) + 1 := by omega
  rw [hfuel, insertLoop, hm]
  simp [hnt]

/-! ## Claim theorems -/

/-- C1 (counterexample): on a `pmix-` file whose `reports` insert fails
transiently on all 4 attempts, the retrying sink returns the exhaustion
error, `loadData` swallows it (ghost `swallowed` log), and yet the
invocation records the item as Success (`'true'`), increments
`processedCount`, and finishes with status `Completed` — the retry
exhaustion updates neither a LedgerEntry nor JobState. -/
theorem c1_counterexample :
    (insertWithRetry fileSinkDead.repAtt "reports").outcome = .error (exhaustMsg "reports") ∧
    (processPdfBatch [fileSinkDead] envQuick (startPrep "t0" st0)).swallowed =
      [exhaustMsg "reports"] ∧
    getProp (processPdfBatch [fileSinkDead] envQuick (startPrep "t0" st0)).props "idSink" =
      some "true" ∧
    getProp (processPdfBatch [fileSinkDead] envQuick (startPrep "t0" st0)).props
      "processedCount" = some "1" ∧
    getProp (processPdfBatch [fileSinkDead] envQuick (startPrep "t0" st0)).props
      "ingestionStatus" = some "Completed" := by
  decide

/-- C1 (amended): for a work item taken from the enumeration, the engine
sets the ledger entry to Success (`'true'`) and increments `processedCount`
whenever extraction returns a truthy result — regardless of the sink
outcome.  A sink failure (including retry exhaustion) is caught and logged
inside `BigQueryLoader.loadData` and appears only in the ghost `swallowed`
log; it updates neither the LedgerEntry (which still reads Success) nor
JobState (`ingestionStatus` is untouched by the item). -/
theorem c1_success_depends_only_on_extraction (f : FileEnt)
    (props : List (String × String)) (count : Nat) (b : Bool)
    (hpmix : strStarts f.name "pmix-" = true) (hparse : f.parse = .parsed b)
    (hid : f.id ∉ RESERVED) :
    getProp (handleFile f props count).props f.id = some "true" ∧
    (handleFile f props count).count = count + 1 ∧
    getProp (handleFile f props count).props "processedCount" = some (toString (count + 1)) ∧
    getProp (handleFile f props count).props "ingestionStatus" =
      getProp props "ingestionStatus" ∧
    (handleFile f props count).swallowed = (loadData b f.repAtt f.metAtt).swallowed := by
  obtain ⟨hfs, hfc, hft, hftok⟩ := ne_of_not_reserved hid
  unfold handleFile
  rw [if_pos hpmix, hparse]
  dsimp only
  refine ⟨?_, rfl, ?_, ?_, rfl⟩
  · rw [getProp_set_ne _ (Ne.symm hfc), getProp_set_self]
  · rw [getProp_set_self]
  · rw [getProp_set_ne _ (by intro hx; simp at hx), getProp_set_ne _ hfs]

/-- Witness for C1 (amended) at a file whose sink write always fails
transiently. -/
theorem c1_witness :
    getProp (handleFile fileSinkDead [] 0).props "idSink" = some "true" ∧
    (handleFile fileSinkDead [] 0).count = 0 + 1 ∧
    getProp (handleFile fileSinkDead [] 0).props "processedCount" = some (toString (0 + 1)) ∧
    getProp (handleFile fileSinkDead [] 0).props "ingestionStatus" =
      getProp [] "ingestionStatus" ∧
    (handleFile fileSinkDead [] 0).swallowed =
      (loadData true fileSinkDead.repAtt fileSinkDead.metAtt).swallowed :=
  c1_success_depends_only_on_extraction fileSinkDead [] 0 true (by decide) rfl (by decide)

/-- C2 (confirmed): a work item whose id already has a ledger entry with
one of the terminal outcomes (Success, FailedParse, TimedOut) is never
submitted to the retrying sink again, in this invocation or any later
invocation of the same run (ghost `sinkSubs` count is unchanged), and its
ledger entry survives verbatim. -/
theorem c2_terminal_item_never_resubmitted (files : List FileEnt) (envs : List InvEnv)
    (st : EngineSt) (id v : String) (hk : id ∉ RESERVED)
    (hget : getProp st.props id = some v) (hterm : terminalVal v = true) :
    (runBatches files envs st).sinkSubs.count id = st.sinkSubs.count id ∧
    getProp (runBatches files envs st).props id = some v := by
  have hne : v ≠ "" := by
    intro he
    subst he
    simp [terminalVal] at hterm
  obtain ⟨h1, h2, _⟩ := runBatches_keep files envs st hk hget hne
  exact ⟨h2, h1⟩

/-- Witness for C2: a ledgered item is not re-submitted when the engine
re-runs over a pass containing it. -/
theorem c2_witness :
    (runBatches [fileOk] [envQuick] stLedgerOk).sinkSubs.count "idOk" =
      stLedgerOk.sinkSubs.count "idOk" ∧
    getProp (runBatches [fileOk] [envQuick] stLedgerOk).props "idOk" = some "true" :=
  c2_terminal_item_never_resubmitted [fileOk] [envQuick] stLedgerOk "idOk" "true"
    (by decide) (by decide) (by decide)

/-- C3 (counterexample): a single enumerated file whose name does not start
with `pmix-` is consumed without any ledger entry, yet after one
uninterrupted invocation (K = 0) the run ends with status `Completed` —
so not every enumerated item reaches a terminal ledger outcome. -/
theorem c3_counterexample :
    strStarts fileOther.name "pmix-" = false ∧
    getProp (processPdfBatch [fileOther] envQuick (startPrep "t0" st0)).props
      "ingestionStatus" = some "Completed" ∧
    getProp (processPdfBatch [fileOther] envQuick (startPrep "t0" st0)).props "idOther" =
      none := by
  decide

/-- C3 (amended): starting a fresh run, after any number of arbitrary
partial invocations (interruptions, setup errors, resumptions) followed by
one setup-error-free invocation whose budget never trips, the run ends with
status `Completed` and every *classifiable* enumerated item — a `pmix-`
file whose processing succeeds, returns null, or throws a `timed out`
error — has exactly one terminal ledger outcome.  (Non-`pmix-` files and
items hit by unexpected non-timeout errors get no ledger entry at all, yet
do not prevent completion.) -/
theorem c3_exhaustiveness_for_classifiable_items (files : List FileEnt) (nowStr : String)
    (pre : List InvEnv) (last : InvEnv) (st : EngineSt)
    (hres : ∀ f ∈ files, f.id ∉ RESERVED) (hsetup : last.setupErr = none)
    (hq : ∀ j, ¬ last.elapsedMs j > SAFE_MS) (hfne : files ≠ []) :
    getProp (processPdfBatch files last
      (runBatches files pre (startPrep nowStr st))).props "ingestionStatus" =
      some "Completed" ∧
    ∀ f ∈ files, goodFile f = true →
      ∃ v, getProp (processPdfBatch files last
        (runBatches files pre (startPrep nowStr st))).props f.id = some v ∧
        terminalVal v = true := by
  have hinv := runBatches_inv files pre (startPrep nowStr st) hres (startPrep_inv files nowStr st)
  obtain ⟨h1, h2⟩ := processPdfBatch_completes files last _ hres hinv hsetup hq hfne
  exact ⟨h1, fun f hf hg => h2 f hf hg⟩

/-- Witness for C3 (amended): a fresh run over two classifiable files,
zero interruptions, one uninterrupted invocation. -/
theorem c3_witness :
    getProp (processPdfBatch [fileOk, fileSinkDead] envQuick
      (runBatches [fileOk, fileSinkDead] [] (startPrep "t0" st0))).props "ingestionStatus" =
      some "Completed" :=
  (c3_exhaustiveness_for_classifiable_items [fileOk, fileSinkDead] "t0" [] envQuick st0
    (by decide) rfl (by intro j; show ¬ (0 : Nat) > SAFE_MS; decide)
    (by exact List.cons_ne_nil _ _)).1

/-- C4 (counterexample): at the exact boundary instant
`elapsed = hardLimit - safetyBuffer` the engine does **not** stop: the
check is strict (`>`), so it pulls and processes the next item, never
persists a cursor, registers no continuation, and completes. -/
theorem c4_counterexample :
    envBoundary.setupErr = none ∧
    envBoundary.elapsedMs 0 =
      (EXECUTION_TIME_LIMIT_MINUTES - TIME_BUFFER_MINUTES) * 60000 ∧
    getProp (processPdfBatch [fileOk] envBoundary (startPrep "t1" st0)).props
      "continuationToken" = none ∧
    pendingCount (processPdfBatch [fileOk] envBoundary (startPrep "t1" st0)) = 0 ∧
    getProp (processPdfBatch [fileOk] envBoundary (startPrep "t1" st0)).props "idOk" =
      some "true" ∧
    getProp (processPdfBatch [fileOk] envBoundary (startPrep "t1" st0)).props
      "ingestionStatus" = some "Completed" := by
  decide

/-- C4 (amended): whenever, before pulling the next item, the elapsed time
*strictly exceeds* `hardLimit - safetyBuffer`, the engine persists the
in-flight cursor (the consumed-count) to JobState, cancels every existing
continuation, registers exactly one new continuation `retryInterval`
(30000 ms) in the future, sets the waiting status, and returns normally:
no further item is pulled (ghost logs unchanged) and no ledger entry is
touched. -/
theorem c4_safety_stop_on_strict_excess (e : Nat → Nat) (f : FileEnt) (rest : List FileEnt)
    (consumed iter count : Nat) (st : EngineSt) (hexp : e iter > SAFE_MS) :
    getProp (runLoop e (f :: rest) consumed iter count st).props "continuationToken" =
      some (encodeTok consumed) ∧
    getProp (runLoop e (f :: rest) consumed iter count st).props "ingestionStatus" =
      some waitingMsg ∧
    (runLoop e (f :: rest) consumed iter count st).triggers =
      ("processPdfBatch", RETRY_MS) :: cancelContinuations st.triggers ∧
    pendingCount (runLoop e (f :: rest) consumed iter count st) = 1 ∧
    (runLoop e (f :: rest) consumed iter count st).extractions = st.extractions ∧
    (runLoop e (f :: rest) consumed iter count st).sinkSubs = st.sinkSubs ∧
    ∀ k, k ∉ RESERVED →
      getProp (runLoop e (f :: rest) consumed iter count st).props k =
        getProp st.props k := by
  simp only [runLoop, if_pos hexp]
  refine ⟨?_, ?_, trivial, ?_, trivial, trivial, ?_⟩
  · rw [getProp_set_ne _ (by intro hx; simp at hx), getProp_set_self]
  · rw [getProp_set_self]
  · simp [pendingCount, List.filter_cons, pending_cancel]
  · intro k hk
    exact (getProp_set_mem_res hk ingestion_mem_reserved _).trans
      (getProp_set_mem_res hk token_mem_reserved _)

/-- Witness for C4 (amended) at a budget check just past the threshold. -/
theorem c4_witness :
    getProp (runLoop (fun _ => SAFE_MS + 1) [fileOk] 0 0 0 st0).props "continuationToken" =
      some (encodeTok 0) ∧
    getProp (runLoop (fun _ => SAFE_MS + 1) [fileOk] 0 0 0 st0).props "ingestionStatus" =
      some waitingMsg ∧
    pendingCount (runLoop (fun _ => SAFE_MS + 1) [fileOk] 0 0 0 st0) = 1 := by
  obtain ⟨h1, h2, _, h4, _, _, _⟩ :=
    c4_safety_stop_on_strict_excess (fun _ => SAFE_MS + 1) fileOk [] 0 0 0 st0 (by decide)
  exact ⟨h1, h2, h4⟩

/-- C5 (confirmed): at most one continuation of the batch job is pending at
any time: every invocation preserves `pendingCount ≤ 1` (each registration
path cancels all continuations first, and completion cancels them), and a
fresh manual run starts with none. -/
theorem c5_single_pending_continuation (files : List FileEnt) (envs : List InvEnv)
    (st : EngineSt) (nowStr : String) :
    (pendingCount st ≤ 1 → pendingCount (runBatches files envs st) ≤ 1) ∧
    pendingCount (runBatches files envs (startPrep nowStr st)) ≤ 1 := by
  constructor
  · exact runBatches_pending files envs st
  · apply runBatches_pending
    show pendingCount (startPrep nowStr st) ≤ 1
    have : pendingCount (startPrep nowStr st) = 0 := by
      simp [pendingCount, startPrep, pending_cancel]
    omega

/-- Witness for C5 over a state that already has one pending continuation
and a sequence with one interruption and one completion. -/
theorem c5_witness :
    pendingCount (runBatches [fileOk] [envBoundary, envQuick] stOneTrigger) ≤ 1 :=
  (c5_single_pending_continuation [fileOk] [envBoundary, envQuick] stOneTrigger "t").1
    (by decide)

/-- C6 (confirmed): for the hard-coded policy (initial delay 1000 ms,
multiplier 2, 4 total attempts), when every attempt fails with a transient
error, the delays slept before attempts 2, 3, 4 are exactly 1 s, 2 s, 4 s —
strictly geometric, `initialDelay * 2^(attempt-1)` after failing attempt 1,
2, 3 — and 4 attempts are made.  (A final 8 s sleep follows the fourth
failed attempt and precedes no attempt.) -/
theorem c6_backoff_delays (att : Nat → AttemptResult) (t : String)
    (h : ∀ i, i < 4 → ∃ m, att i = .failure m ∧ transientErr m = true) :
    (insertWithRetry att t).sleeps.take 3 = [1000, 2000, 4000] ∧
    (insertWithRetry att t).sleeps.take 3 =
      [1000 * 2 ^ 0, 1000 * 2 ^ 1, 1000 * 2 ^ 2] ∧
    (insertWithRetry att t).attemptsMade = 4 := by
  rw [insertWithRetry_exhaust att t h]
  refine ⟨rfl, by norm_num, rfl⟩

/-- Witness for C6 at an oracle failing every attempt transiently. -/
theorem c6_witness :
    (insertWithRetry attAllTransient "reports").sleeps.take 3 = [1000, 2000, 4000] ∧
    (insertWithRetry attAllTransient "reports").sleeps.take 3 =
      [1000 * 2 ^ 0, 1000 * 2 ^ 1, 1000 * 2 ^ 2] ∧
    (insertWithRetry attAllTransient "reports").attemptsMade = 4 :=
  c6_backoff_delays attAllTransient "reports"
    (fun i _ => ⟨TRANSIENT_SNIPPET, rfl, by decide⟩)

/-- C7 (counterexample): on retry exhaustion the thrown error names only
the table and the attempt count; its message does not contain the last
underlying error's message (here the transient server-error signature), so
it does not wrap the last underlying error. -/
theorem c7_counterexample :
    (insertWithRetry attAllTransient "reports").outcome = .error (exhaustMsg "reports") ∧
    strIncludes (exhaustMsg "reports") TRANSIENT_SNIPPET = false ∧
    (insertWithRetry attAllTransient "reports").attemptsMade = 4 := by
  decide

/-- C7 (amended): the retrying sink makes at most 4 total attempts, and
every run is one of three shapes, each fully characterised: after `k`
leading transient failures (each followed by a geometric sleep
`1000 * 2^0, …, 1000 * 2^(k-1)`), a success on attempt `k` returns with
`k + 1` attempts made; a non-transient failure on attempt `k` is rethrown
immediately with `k + 1` attempts and no further sleep or retry; and four
transient failures exhaust the retries, throwing the fixed exhaustion error
(which records the table and attempt count but not the underlying error). -/
theorem c7_retry_contract (att : Nat → AttemptResult) (t : String) :
    (insertWithRetry att t).attemptsMade ≤ 4 ∧
    (∀ k, k < 4 → (∀ i, i < k → ∃ m, att i = .failure m ∧ transientErr m = true) →
      att k = .success →
      insertWithRetry att t =
        ⟨.ok (), k + 1, (List.range k).map (fun i => 1000 * 2 ^ i)⟩) ∧
    (∀ k m, k < 4 → (∀ i, i < k → ∃ w, att i = .failure w ∧ transientErr w = true) →
      att k = .failure m → transientErr m = false →
      insertWithRetry att t =
        ⟨.error m, k + 1, (List.range k).map (fun i => 1000 * 2 ^ i)⟩) ∧
    ((∀ i, i < 4 → ∃ m, att i = .failure m ∧ transientErr m = true) →
      insertWithRetry att t = ⟨.error (exhaustMsg t), 4, [1000, 2000, 4000, 8000]⟩) := by
  refine ⟨?_, ?_, ?_, ?_⟩
  · have := insertLoop_attempts att t 4 0 1000 []
    simpa [insertWithRetry] using this
  · intro k hk h hs
    exact insertWithRetry_succeeds_after att t k hk h hs
  · intro k m hk h hm hnt
    exact insertWithRetry_fatal_after att t k m hk h hm hnt
  · intro h
    exact insertWithRetry_exhaust att t h

/-- Witness for C7 (amended): Scenario B (two transient failures then
success: 3 attempts, sleeps 1 s and 2 s) and exhaustion at the
all-transient oracle. -/
theorem c7_witness :
    insertWithRetry attTransientTwice "reports" = ⟨.ok (), 3, [1000, 2000]⟩ ∧
    insertWithRetry attAllTransient "metrics" =
      ⟨.error (exhaustMsg "metrics"), 4, [1000, 2000, 4000, 8000]⟩ := by
  constructor
  · have h := (c7_retry_contract attTransientTwice "reports").2.1 2 (by omega)
      (fun i hi => ⟨TRANSIENT_SNIPPET, by simp [attTransientTwice, hi], by decide⟩) rfl
    rw [h]
    congr 1
  · exact (c7_retry_contract attAllTransient "metrics").2.2.2
      (fun i _ => ⟨TRANSIENT_SNIPPET, rfl, by decide⟩)

/-- C8 (counterexample): on a transient setup-phase error the engine does
register exactly one continuation, but `ingestionStatus` is set to
`Failed: <message>` *before* the transient check and never overwritten, so
the user-visible status is a Failed text, not a RetryScheduled one. -/
theorem c8_counterexample :
    envSetupTransient.setupErr = some SETUP_MSG ∧
    transientErr SETUP_MSG = true ∧
    getProp (processPdfBatch [fileOk] envSetupTransient (startPrep "t0" st0)).props
      "ingestionStatus" = some ("Failed: " ++ SETUP_MSG) ∧
    strStarts ("Failed: " ++ SETUP_MSG) "Failed:" = true ∧
    pendingCount (processPdfBatch [fileOk] envSetupTransient (startPrep "t0" st0)) = 1 := by
  decide

/-- C8 (amended): on a setup-phase error matching the transient predicate,
the engine cancels existing continuations and registers exactly one new
continuation at `retryInterval`, but sets `JobState.status` to
`Failed: <message>` (the transient branch does not overwrite the Failed
text); no ledger entry is touched. -/
theorem c8_transient_setup_reschedules_but_reports_failed (files : List FileEnt)
    (env : InvEnv) (st : EngineSt) (m : String) (hse : env.setupErr = some m)
    (htr : transientErr m = true) :
    getProp (processPdfBatch files env st).props "ingestionStatus" =
      some ("Failed: " ++ m) ∧
    (processPdfBatch files env st).triggers =
      ("processPdfBatch", RETRY_MS) :: cancelContinuations st.triggers ∧
    pendingCount (processPdfBatch files env st) = 1 ∧
    ∀ k, k ∉ RESERVED → getProp (processPdfBatch files env st).props k =
      getProp st.props k := by
  unfold processPdfBatch
  simp only [hse]
  rw [if_pos htr]
  refine ⟨?_, rfl, ?_, ?_⟩
  · exact getProp_set_self _ _ _
  · simp [pendingCount, List.filter_cons, pending_cancel]
  · intro k hk
    exact (getProp_set_mem_res hk ingestion_mem_reserved _).trans
      ((getProp_set_mem_res hk ts_mem_reserved _).trans
        (getProp_set_mem_res hk ingestion_mem_reserved _))

/-- Witness for C8 (amended) at the concrete transient setup error. -/
theorem c8_witness :
    getProp (processPdfBatch [fileOk] envSetupTransient stLedgerOk).props
      "ingestionStatus" = some ("Failed: " ++ SETUP_MSG) ∧
    pendingCount (processPdfBatch [fileOk] envSetupTransient stLedgerOk) = 1 :=
  ⟨(c8_transient_setup_reschedules_but_reports_failed [fileOk] envSetupTransient stLedgerOk
      SETUP_MSG rfl (by decide)).1,
   (c8_transient_setup_reschedules_but_reports_failed [fileOk] envSetupTransient stLedgerOk
      SETUP_MSG rfl (by decide)).2.2.1⟩

/-- C9 (counterexample): starting a fresh manual run
(`startFullIngestion`'s `deleteAllProperties`) deletes an existing ledger
entry — deletion is not reserved to an out-of-band retention sweep. -/
theorem c9_counterexample :
    getProp stLedgerOk.props "idOk" = some "true" ∧
    getProp (startPrep "t0" stLedgerOk).props "idOk" = none := by
  decide

/-- C9 (amended): within batch processing, ledger entries are only appended
or overwritten, never deleted — a truthy entry survives any invocation
verbatim and a present entry stays present; but starting a fresh manual run
(`startFullIngestion`) deletes every ledger entry along with JobState. -/
theorem c9_entries_survive_batch_but_not_fresh_start (files : List FileEnt) (env : InvEnv)
    (st : EngineSt) (nowStr : String) (k v : String) (hk : k ∉ RESERVED) :
    (getProp st.props k = some v → v ≠ "" →
      getProp (processPdfBatch files env st).props k = some v) ∧
    ((getProp st.props k).isSome → (getProp (processPdfBatch files env st).props k).isSome) ∧
    getProp (startPrep nowStr st).props k = none := by
  refine ⟨?_, ?_, startPrep_none nowStr st hk⟩
  · intro hget hne
    exact (processPdfBatch_keep files env st hk hget hne).1
  · intro hget
    exact processPdfBatch_present files env st hk hget

/-- Witness for C9 (amended): a Success entry survives a full invocation,
and a fresh start deletes it. -/
theorem c9_witness :
    getProp (processPdfBatch [fileOk] envQuick stLedgerOk).props "idOk" = some "true" ∧
    getProp (startPrep "t0" stLedgerOk).props "idOk" = none :=
  ⟨(c9_entries_survive_batch_but_not_fresh_start [fileOk] envQuick stLedgerOk "t0" "idOk"
      "true" (by decide)).1 (by decide) (by decide),
   (c9_entries_survive_batch_but_not_fresh_start [fileOk] envQuick stLedgerOk "t0" "idOk"
      "true" (by decide)).2.2⟩

/-- C10 (confirmed): starting a fresh run, a file whose name does not start
with `pmix-` (and whose id no `pmix-` file shares) is never handed to the
extractor and never submitted to the sink across any invocation sequence,
acquires no ledger entry (it stays Unseen forever), and does not prevent
the run from ending with status `Completed` once an uninterrupted
invocation occurs. -/
theorem c10_nonpmix_silently_skipped (files : List FileEnt) (envs : List InvEnv)
    (lastEnv : InvEnv) (st : EngineSt) (nowStr : String) (f : FileEnt)
    (hf : f ∈ files)
    (hnp : ∀ g ∈ files, g.id = f.id → strStarts g.name "pmix-" = false)
    (hres : ∀ g ∈ files, g.id ∉ RESERVED)
    (hsetup : lastEnv.setupErr = none)
    (hq : ∀ j, ¬ lastEnv.elapsedMs j > SAFE_MS) :
    getProp (processPdfBatch files lastEnv
      (runBatches files envs (startPrep nowStr st))).props f.id = none ∧
    (processPdfBatch files lastEnv
      (runBatches files envs (startPrep nowStr st))).extractions.count f.id =
      st.extractions.count f.id ∧
    (processPdfBatch files lastEnv
      (runBatches files envs (startPrep nowStr st))).sinkSubs.count f.id =
      st.sinkSubs.count f.id ∧
    getProp (processPdfBatch files lastEnv
      (runBatches files envs (startPrep nowStr st))).props "ingestionStatus" =
      some "Completed" := by
  have hidres : f.id ∉ RESERVED := hres f hf
  have hnone0 : getProp (startPrep nowStr st).props f.id = none :=
    startPrep_none nowStr st hidres
  obtain ⟨h1, h2, h3⟩ := runBatches_none files envs (startPrep nowStr st) hidres hnone0 hnp
  obtain ⟨g1, g2, g3⟩ := processPdfBatch_none files lastEnv _ hidres h1 hnp
  have hinv := runBatches_inv files envs (startPrep nowStr st) hres
    (startPrep_inv files nowStr st)
  have hcomp := (processPdfBatch_completes files lastEnv _ hres hinv hsetup hq
    (List.ne_nil_of_mem hf)).1
  exact ⟨g1, by rw [g3, h3]; rfl, by rw [g2, h2]; rfl, hcomp⟩

/-- Witness for C10: a non-`pmix-` file in a fresh two-file run. -/
theorem c10_witness :
    getProp (processPdfBatch [fileOk, fileOther] envQuick
      (runBatches [fileOk, fileOther] [] (startPrep "t0" st0))).props fileOther.id = none ∧
    (processPdfBatch [fileOk, fileOther] envQuick
      (runBatches [fileOk, fileOther] [] (startPrep "t0" st0))).extractions.count
      fileOther.id = st0.extractions.count fileOther.id ∧
    (processPdfBatch [fileOk, fileOther] envQuick
      (runBatches [fileOk, fileOther] [] (startPrep "t0" st0))).sinkSubs.count
      fileOther.id = st0.sinkSubs.count fileOther.id ∧
    getProp (processPdfBatch [fileOk, fileOther] envQuick
      (runBatches [fileOk, fileOther] [] (startPrep "t0" st0))).props "ingestionStatus" =
      some "Completed" :=
  c10_nonpmix_silently_skipped [fileOk, fileOther] [] envQuick st0 "t0" fileOther
    (by simp) (by decide) (by decide) rfl
    (by intro j; show ¬ (0 : Nat) > SAFE_MS; decide)

end Senso
